import Mathlib

/-!
# Verification of the ParcelFinder repository

Shallow embedding of `src/ParcelFinder.js` (and its TypeScript twin
`src/ParcelFinder.ts`): a program that takes coordinate strings "x,y",
validates them, builds an occupancy grid, and returns the perimeter of
every 4-connected parcel of occupied cells, in scan discovery order.

Coordinates are embedded as `Int × Int` (JavaScript numbers here are exact
small integers; `p[0] - 1` can be `-1`, which `Int` models exactly).
The grid is a list of columns (the JS code indexes `grid[x][y]`), each a
list of `Nat` cell values; out-of-bounds reads yield `0` (JS `undefined`
is falsy in the `grid[x][y] &&`-style tests that guard every read).
The `while` loop of `traceParcel` is embedded with an explicit fuel
(`Option.none` = fuel exhausted); we prove that the fuel chosen in
`traceParcel` is always sufficient.
-/

/-- A point: x and y coordinate, as exact integers. -/
abbrev Pt := Int × Int

/-- The occupancy grid: `grid[x][y]`, a list of columns. -/
abbrev Grid := List (List Nat)

/-- `TYPE_ERROR_MSG` of ParcelFinder.js / ParcelFinder.ts. -/
def TYPE_ERROR_MSG : String := "Point coordinates must be an array of strings in the form \"x,y\""

/-- `RANGE_ERROR_MSG` of ParcelFinder.js / ParcelFinder.ts. -/
def RANGE_ERROR_MSG : String := "Point coordinates values must be in the range 0 to 99"

/-- `MAX_VALUE` of ParcelFinder.js / ParcelFinder.ts. -/
def MAX_VALUE : Nat := 99

/-- The two error species the program throws: `TypeError` / `RangeError`. -/
inductive ErrKind where
  | typeKind : ErrKind
  | rangeKind : ErrKind
deriving DecidableEq, Repr

/-- An error value: its species together with its message. -/
abbrev PError := ErrKind × String

/-- The `TypeError` thrown by `parsePoints`. -/
def typeError : PError := (ErrKind.typeKind, TYPE_ERROR_MSG)

/-- The `RangeError` thrown by `parsePoints`. -/
def rangeError : PError := (ErrKind.rangeKind, RANGE_ERROR_MSG)

/-- The character class of the JavaScript regex `\\s`: tab, line feed,
vertical tab, form feed, carriage return, space, no-break space, the
Unicode space separators, line/paragraph separator, and the BOM. -/
def jsSpace (c : Char) : Bool :=
  c.val = 0x09 || c.val = 0x0A || c.val = 0x0B || c.val = 0x0C || c.val = 0x0D ||
  c.val = 0x20 || c.val = 0xA0 || c.val = 0x1680 ||
  (0x2000 ≤ c.val && c.val ≤ 0x200A) ||
  c.val = 0x2028 || c.val = 0x2029 || c.val = 0x202F || c.val = 0x205F ||
  c.val = 0x3000 || c.val = 0xFEFF

/-- `parseInt(d, 10)` on a string of decimal digits. -/
def digitsToNat (ds : List Char) : Nat :=
  ds.foldl (fun a c => 10 * a + (c.toNat - '0'.toNat)) 0

/-- The regex test `point.match(/^(\d+)\s*,\s*(\d+)$/)` of `parsePoints`:
returns the two captured integers on a match (`parseInt` applied to the two
digit groups), `none` when the string does not match.  The regex classes
`\d`, `\s` and `,` are pairwise disjoint, so the greedy left-to-right scan
embedded here is exactly the regex's match. -/
def matchPoint (s : String) : Option (Nat × Nat) :=
  let cs := s.toList
  let d1 := cs.takeWhile Char.isDigit
  let r1 := cs.dropWhile Char.isDigit
  if d1.isEmpty then none
  else
    match r1.dropWhile jsSpace with
    | ',' :: r3 =>
      let r4 := r3.dropWhile jsSpace
      let d2 := r4.takeWhile Char.isDigit
      let r5 := r4.dropWhile Char.isDigit
      if d2.isEmpty || !r5.isEmpty then none
      else some (digitsToNat d1, digitsToNat d2)
    | _ => none

/-- The validation loop of `parsePoints` (the `points.forEach` of
ParcelFinder.js lines 35–53): checks each string against the regex, throws
`TypeError` on a shape failure, `RangeError` when a parsed value exceeds
`MAX_VALUE`, and otherwise accumulates the parsed pairs and the running
per-axis maxima (which start at `-1`). -/
def parseLoop : List String → List (Nat × Nat) → Int → Int →
    Except PError (List (Nat × Nat) × Int × Int)
  | [], acc, maxX, maxY => Except.ok (acc, maxX, maxY)
  | s :: rest, acc, maxX, maxY =>
    match matchPoint s with
    | none => Except.error typeError
    | some (x, y) =>
      if MAX_VALUE < x || MAX_VALUE < y then Except.error rangeError
      else parseLoop rest (acc ++ [(x, y)]) (max maxX (x : Int)) (max maxY (y : Int))

/-- `createEmptyGrid` of ParcelFinder.js lines 140–146: a grid of `x+1`
columns of `y+1` zeroes. -/
def createEmptyGrid (x y : Int) : Grid :=
  List.replicate (x + 1).toNat (List.replicate (y + 1).toNat 0)

/-- Read `grid[x][y]`; out-of-bounds (including negative indices) reads `0`
( = falsy, matching how every read in the source is used). -/
def gridGet (g : Grid) (x y : Int) : Nat :=
  if 0 ≤ x ∧ 0 ≤ y then (g.getD x.toNat []).getD y.toNat 0 else 0

/-- Write `grid[x][y] = v`; writes outside the grid's extent are dropped
(the source never performs one — see the bounds-safety theorem). -/
def setCell (g : Grid) (x y : Int) (v : Nat) : Grid :=
  if 0 ≤ x ∧ 0 ≤ y then g.set x.toNat ((g.getD x.toNat []).set y.toNat v) else g

/-- Grid construction in `parsePoints` (ParcelFinder.js lines 55–58):
allocate the empty grid and mark each parsed point's cell `1`. -/
def buildGrid (pts : List (Nat × Nat)) (maxX maxY : Int) : Grid :=
  pts.foldl (fun g p => setCell g (p.1 : Int) (p.2 : Int) 1) (createEmptyGrid maxX maxY)

/-- `parsePoints` of ParcelFinder.js lines 28–60: validate every string,
then build the populated grid and return it with the axis limits. -/
def parsePoints (points : List String) : Except PError (Grid × Int × Int) :=
  (parseLoop points [] (-1) (-1)).map fun r => (buildGrid r.1 r.2.1 r.2.2, r.2.1, r.2.2)

/-- `isNewNeighbour` of `traceParcel`: the cell is truthy in the grid and
its coordinates are not in the `seen` set.  (JS keys the set by the string
`x + ' ' + y`, which is injective on integer pairs.) -/
def isNewNeighbour (g : Grid) (seen : List Pt) (x y : Int) : Bool :=
  gridGet g x y != 0 && !(decide ((x, y) ∈ seen))

/-- One direction of the `traceParcel` loop body:
`if (boundOk && isNewNeighbour(n)) stack.push(n); else if (!hasBeenSeen(n)) openEdges++`.
Returns the pushed points and the perimeter increment. -/
def dirStep (g : Grid) (seen : List Pt) (boundOk : Bool) (n : Pt) : List Pt × Nat :=
  if boundOk && isNewNeighbour g seen n.1 n.2 then ([n], 0)
  else if n ∈ seen then ([], 0) else ([], 1)

/-- The `while (stack.length)` loop of `traceParcel` (ParcelFinder.js lines
98–131), with explicit fuel.  The list `stack` is kept top-first (JS pushes
and pops at the array's end); the four directions are examined in the
source order left, right, down, up, so their pushes land on the stack with
`up` popped first, exactly as in the source.  `none` = fuel exhausted;
`traceParcel` supplies provably sufficient fuel. -/
def traceLoop (maxX maxY : Int) : Nat → Grid → List Pt → Nat → List Pt →
    Option (Nat × Grid)
  | 0, _, _, _, _ => none
  | _ + 1, g, _, openEdges, [] => some (openEdges, g)
  | fuel + 1, g, seen, openEdges, p :: rest =>
    let g1 := setCell g p.1 p.2 0
    if (p.1, p.2) ∈ seen then
      traceLoop maxX maxY fuel g1 seen openEdges rest
    else
      let l := dirStep g1 seen (decide (0 < p.1)) (p.1 - 1, p.2)
      let r := dirStep g1 seen (decide (p.1 < maxX)) (p.1 + 1, p.2)
      let d := dirStep g1 seen (decide (0 < p.2)) (p.1, p.2 - 1)
      let u := dirStep g1 seen (decide (p.2 < maxY)) (p.1, p.2 + 1)
      traceLoop maxX maxY fuel g1 (p :: seen)
        (openEdges + l.2 + r.2 + d.2 + u.2)
        (u.1 ++ d.1 ++ r.1 ++ l.1 ++ rest)

/-- Fuel that always suffices for `traceLoop` started on an in-bounds cell
(proved below): five steps per grid cell, plus the initial stack entry,
plus one step to observe the empty stack. -/
def traceFuel (maxX maxY : Int) : Nat :=
  5 * ((maxX + 1).toNat * ((maxY + 1).toNat)) + 2

/-- `traceParcel` of ParcelFinder.js lines 91–132: run the trace loop from
the cell `(x, y)` with empty seen set, zero open edges. -/
def traceParcel (g : Grid) (x y : Int) (maxX maxY : Int) : Option (Nat × Grid) :=
  traceLoop maxX maxY (traceFuel maxX maxY) g [] 0 [(x, y)]

/-- `for (let x=0; x<=m; x++)`: the integers `0, 1, …, m` (empty for `m < 0`). -/
def intsUpTo (m : Int) : List Int :=
  (List.range (m + 1).toNat).map (fun i : Nat => (i : Int))

/-- The inner `y` loop of `findParcels`: scan one column, starting a trace
at every still-occupied cell, threading the mutated grid. -/
def scanY (maxX maxY : Int) (x : Int) : List Int → Grid → Option (List Nat × Grid)
  | [], g => some ([], g)
  | y :: ys, g =>
    if gridGet g x y != 0 then
      match traceParcel g x y maxX maxY with
      | none => none
      | some (per, g') =>
        (scanY maxX maxY x ys g').map fun r => (per :: r.1, r.2)
    else scanY maxX maxY x ys g

/-- The outer `x` loop of `findParcels`. -/
def scanX (maxX maxY : Int) : List Int → Grid → Option (List Nat × Grid)
  | [], g => some ([], g)
  | x :: xs, g =>
    (scanY maxX maxY x (intsUpTo maxY) g).bind fun r =>
      (scanX maxX maxY xs r.2).map fun r2 => (r.1 ++ r2.1, r2.2)

/-- `findParcels` of ParcelFinder.js lines 69–80, with the trace-loop fuel
still explicit (`none` = some trace ran out of fuel; proved impossible for
the grids the program builds). -/
def findParcelsO (g : Grid) (maxX maxY : Int) : Option (List Nat × Grid) :=
  scanX maxX maxY (intsUpTo maxX) g

/-- `findParcels`, totalized: the fuel-exhaustion fallback `([], g)` is
proved unreachable below (`findParcelsO_isSome`-style results). -/
def findParcels (g : Grid) (maxX maxY : Int) : List Nat × Grid :=
  (findParcelsO g maxX maxY).getD ([], g)

/-- `render` of ParcelFinder.js lines 8–21: empty input short-circuits to
`[]`; otherwise parse, build the grid, and return the perimeter list. -/
def render (points : List String) : Except PError (List Nat) :=
  if points.isEmpty then Except.ok []
  else
    (parsePoints points).map fun r => (findParcels r.1 r.2.1 r.2.2).1

/-! ## The TypeScript implementation (src/ParcelFinder.ts)

Embedded separately from the JavaScript file, following the TypeScript
source's own structure (`IGrid` record, `hasNotBeenSeen` helper); the
equivalence of the two is one of the verified claims. -/

/-- `IGrid` of ParcelFinder.ts: the grid bundled with its axis limits. -/
structure IGrid where
  grid : Grid
  maxX : Int
  maxY : Int

/-- The `points.forEach` validation loop of ParcelFinder.ts `parsePoints`
(lines 42–61): same regex, same range check, same error values. -/
def parseLoopTS : List String → List (Nat × Nat) → Int → Int →
    Except PError (List (Nat × Nat) × Int × Int)
  | [], acc, maxX, maxY => Except.ok (acc, maxX, maxY)
  | s :: rest, acc, maxX, maxY =>
    match matchPoint s with
    | none => Except.error typeError
    | some (x, y) =>
      if MAX_VALUE < x || MAX_VALUE < y then Except.error rangeError
      else parseLoopTS rest (acc ++ [(x, y)]) (max maxX (x : Int)) (max maxY (y : Int))

/-- `parsePoints` of ParcelFinder.ts lines 39–67. -/
def parsePointsTS (points : List String) : Except PError IGrid :=
  (parseLoopTS points [] (-1) (-1)).map fun r => ⟨buildGrid r.1 r.2.1 r.2.2, r.2.1, r.2.2⟩

/-- `hasNotBeenSeen` of ParcelFinder.ts `traceParcel`. -/
def hasNotBeenSeen (seen : List Pt) (x y : Int) : Bool :=
  !(decide ((x, y) ∈ seen))

/-- `isNewNeighbour` of ParcelFinder.ts `traceParcel`. -/
def isNewNeighbourTS (g : Grid) (seen : List Pt) (x y : Int) : Bool :=
  gridGet g x y != 0 && hasNotBeenSeen seen x y

/-- One direction of the ParcelFinder.ts `traceParcel` loop body. -/
def dirStepTS (g : Grid) (seen : List Pt) (boundOk : Bool) (n : Pt) : List Pt × Nat :=
  if boundOk && isNewNeighbourTS g seen n.1 n.2 then ([n], 0)
  else if hasNotBeenSeen seen n.1 n.2 then ([], 1) else ([], 0)

/-- The `while` loop of ParcelFinder.ts `traceParcel` (lines 108–145). -/
def traceLoopTS (maxX maxY : Int) : Nat → Grid → List Pt → Nat → List Pt →
    Option (Nat × Grid)
  | 0, _, _, _, _ => none
  | _ + 1, g, _, openEdges, [] => some (openEdges, g)
  | fuel + 1, g, seen, openEdges, p :: rest =>
    let g1 := setCell g p.1 p.2 0
    if hasNotBeenSeen seen p.1 p.2 then
      let l := dirStepTS g1 seen (decide (0 < p.1)) (p.1 - 1, p.2)
      let r := dirStepTS g1 seen (decide (p.1 < maxX)) (p.1 + 1, p.2)
      let d := dirStepTS g1 seen (decide (0 < p.2)) (p.1, p.2 - 1)
      let u := dirStepTS g1 seen (decide (p.2 < maxY)) (p.1, p.2 + 1)
      traceLoopTS maxX maxY fuel g1 (p :: seen)
        (openEdges + l.2 + r.2 + d.2 + u.2)
        (u.1 ++ d.1 ++ r.1 ++ l.1 ++ rest)
    else
      traceLoopTS maxX maxY fuel g1 seen openEdges rest

/-- `traceParcel` of ParcelFinder.ts lines 106–146. -/
def traceParcelTS (gd : IGrid) (pX pY : Int) : Option (Nat × Grid) :=
  traceLoopTS gd.maxX gd.maxY (traceFuel gd.maxX gd.maxY) gd.grid [] 0 [(pX, pY)]

/-- Inner `y` loop of ParcelFinder.ts `findParcels`. -/
def scanYTS (maxX maxY : Int) (x : Int) : List Int → Grid → Option (List Nat × Grid)
  | [], g => some ([], g)
  | y :: ys, g =>
    if gridGet g x y != 0 then
      match traceParcelTS ⟨g, maxX, maxY⟩ x y with
      | none => none
      | some (per, g') =>
        (scanYTS maxX maxY x ys g').map fun r => (per :: r.1, r.2)
    else scanYTS maxX maxY x ys g

/-- Outer `x` loop of ParcelFinder.ts `findParcels` (lines 76–86). -/
def scanXTS (maxX maxY : Int) : List Int → Grid → Option (List Nat × Grid)
  | [], g => some ([], g)
  | x :: xs, g =>
    (scanYTS maxX maxY x (intsUpTo maxY) g).bind fun r =>
      (scanXTS maxX maxY xs r.2).map fun r2 => (r.1 ++ r2.1, r2.2)

/-- `findParcels` of ParcelFinder.ts, fuel explicit. -/
def findParcelsTSO (gd : IGrid) : Option (List Nat × Grid) :=
  scanXTS gd.maxX gd.maxY (intsUpTo gd.maxX) gd.grid

/-- `ParcelFinder.computeParcelPerimeters` of ParcelFinder.ts lines 14–20. -/
def computeParcelPerimeters (points : List String) : Except PError (List Nat) :=
  if points.isEmpty then Except.ok []
  else
    (parsePointsTS points).map fun gd => ((findParcelsTSO gd).getD ([], gd.grid)).1

/-! ## Bounds-checked variant of the scan and trace

Identical control flow, but every `grid[x][y]` read and write goes through
an `Except`-returning accessor that fails on any index outside the grid's
actual extent.  Proving this variant returns `.ok` of the plain result is
the formal statement that no out-of-bounds access ever happens. -/

/-- Failure of the instrumented run: an out-of-bounds access, or fuel
exhaustion of the embedded `while` loop. -/
inductive TraceFail where
  | oob : TraceFail
  | outOfFuel : TraceFail
deriving DecidableEq, Repr

/-- Read `grid[x][y]`, failing on an index outside the grid's extent. -/
def gridGetChecked (g : Grid) (x y : Int) : Except TraceFail Nat :=
  if 0 ≤ x ∧ 0 ≤ y ∧ x.toNat < g.length ∧ y.toNat < (g.getD x.toNat []).length then
    Except.ok ((g.getD x.toNat []).getD y.toNat 0)
  else Except.error TraceFail.oob

/-- Write `grid[x][y] = v`, failing on an index outside the grid's extent. -/
def setCellChecked (g : Grid) (x y : Int) (v : Nat) : Except TraceFail Grid :=
  if 0 ≤ x ∧ 0 ≤ y ∧ x.toNat < g.length ∧ y.toNat < (g.getD x.toNat []).length then
    Except.ok (setCell g x y v)
  else Except.error TraceFail.oob

/-- One direction of the trace loop, bounds-checked: the grid is read only
when the short-circuit boundary test passes, exactly as in the source. -/
def dirStepChecked (g : Grid) (seen : List Pt) (boundOk : Bool) (n : Pt) :
    Except TraceFail (List Pt × Nat) :=
  if boundOk then do
    let v ← gridGetChecked g n.1 n.2
    if v != 0 && !(decide (n ∈ seen)) then pure ([n], 0)
    else if n ∈ seen then pure ([], 0) else pure ([], 1)
  else if n ∈ seen then pure ([], 0) else pure ([], 1)

/-- The trace loop with every grid access bounds-checked. -/
def traceLoopChecked (maxX maxY : Int) : Nat → Grid → List Pt → Nat → List Pt →
    Except TraceFail (Nat × Grid)
  | 0, _, _, _, _ => Except.error TraceFail.outOfFuel
  | _ + 1, g, _, openEdges, [] => Except.ok (openEdges, g)
  | fuel + 1, g, seen, openEdges, p :: rest => do
    let g1 ← setCellChecked g p.1 p.2 0
    if (p.1, p.2) ∈ seen then
      traceLoopChecked maxX maxY fuel g1 seen openEdges rest
    else do
      let l ← dirStepChecked g1 seen (decide (0 < p.1)) (p.1 - 1, p.2)
      let r ← dirStepChecked g1 seen (decide (p.1 < maxX)) (p.1 + 1, p.2)
      let d ← dirStepChecked g1 seen (decide (0 < p.2)) (p.1, p.2 - 1)
      let u ← dirStepChecked g1 seen (decide (p.2 < maxY)) (p.1, p.2 + 1)
      traceLoopChecked maxX maxY fuel g1 (p :: seen)
        (openEdges + l.2 + r.2 + d.2 + u.2)
        (u.1 ++ d.1 ++ r.1 ++ l.1 ++ rest)

/-- `traceParcel`, bounds-checked. -/
def traceParcelChecked (g : Grid) (x y : Int) (maxX maxY : Int) :
    Except TraceFail (Nat × Grid) :=
  traceLoopChecked maxX maxY (traceFuel maxX maxY) g [] 0 [(x, y)]

/-- Inner `y` loop of `findParcels`, bounds-checked. -/
def scanYChecked (maxX maxY : Int) (x : Int) : List Int → Grid →
    Except TraceFail (List Nat × Grid)
  | [], g => Except.ok ([], g)
  | y :: ys, g => do
    let v ← gridGetChecked g x y
    if v != 0 then do
      let r ← traceParcelChecked g x y maxX maxY
      let r2 ← scanYChecked maxX maxY x ys r.2
      pure (r.1 :: r2.1, r2.2)
    else scanYChecked maxX maxY x ys g

/-- Outer `x` loop of `findParcels`, bounds-checked. -/
def scanXChecked (maxX maxY : Int) : List Int → Grid →
    Except TraceFail (List Nat × Grid)
  | [], g => Except.ok ([], g)
  | x :: xs, g => do
    let r ← scanYChecked maxX maxY x (intsUpTo maxY) g
    let r2 ← scanXChecked maxX maxY xs r.2
    pure (r.1 ++ r2.1, r2.2)

/-- `findParcels` with every grid access bounds-checked. -/
def findParcelsChecked (g : Grid) (maxX maxY : Int) :
    Except TraceFail (List Nat × Grid) :=
  scanXChecked maxX maxY (intsUpTo maxX) g

/-! ## Specification-side notions

The mathematical vocabulary the claims are phrased in: 4-adjacency,
connected components (`Reach` is reflexive-transitive closure of being
linked occupied cells), the perimeter of a finite cell set, and the scan
order of `findParcels`. -/

/-- The four axis-aligned neighbours of a cell, in the source's order of
examination: left, right, down, up. -/
def nbrs (c : Pt) : List Pt :=
  [(c.1 - 1, c.2), (c.1 + 1, c.2), (c.1, c.2 - 1), (c.1, c.2 + 1)]

/-- The cell is occupied in the grid. -/
abbrev Occ (g : Grid) (c : Pt) : Prop := gridGet g c.1 c.2 ≠ 0

/-- Two occupied cells, 4-adjacent. -/
def Linked (g : Grid) (a b : Pt) : Prop := Occ g a ∧ Occ g b ∧ b ∈ nbrs a

/-- `b` is reachable from `a` through occupied 4-adjacent cells. -/
def Reach (g : Grid) (a b : Pt) : Prop := Relation.ReflTransGen (Linked g) a b

/-- `T` is a maximal 4-connected component of occupied cells: the set of
everything reachable from some occupied cell. -/
def IsComponent (g : Grid) (T : Finset Pt) : Prop :=
  ∃ c, Occ g c ∧ ∀ x, x ∈ T ↔ Reach g c x

/-- The perimeter of a finite set of cells: the number of (cell, direction)
pairs whose neighbour lies outside the set. -/
def perimOf (T : Finset Pt) : Nat :=
  T.sum fun c => ((nbrs c).filter fun n => decide (n ∉ T)).length

/-- Scan order of `findParcels`: `x` ascending, then `y` ascending. -/
def scanLT (a b : Pt) : Prop := a.1 < b.1 ∨ (a.1 = b.1 ∧ a.2 < b.2)

/-- `c` is the scan-least cell of `T`. -/
def leastCell (T : Finset Pt) (c : Pt) : Prop :=
  c ∈ T ∧ ∀ d ∈ T, ¬ scanLT d c

/-- `g` has exactly `maxX + 1` columns, each of `maxY + 1` cells. -/
def RectGrid (g : Grid) (maxX maxY : Int) : Prop :=
  g.length = (maxX + 1).toNat ∧ ∀ row ∈ g, row.length = (maxY + 1).toNat

/-- An element passes validation: the regex matches and both parsed values
are within `MAX_VALUE`. -/
def validElem (s : String) : Bool :=
  match matchPoint s with
  | none => false
  | some (x, y) => decide (x ≤ MAX_VALUE) && decide (y ≤ MAX_VALUE)

/-- The error an invalid element produces when validation reaches it:
shape failures give the `TypeError`, range failures the `RangeError`. -/
def elemErrorOf (s : String) : PError :=
  match matchPoint s with
  | none => typeError
  | some _ => rangeError

/-- Core of the C4 claim's pattern: digits, optional whitespace, comma,
optional whitespace, digits, end of string.  The character classes are
pairwise disjoint, so the greedy scan decides the pattern. -/
def patC4core (cs : List Char) : Bool :=
  let d1 := cs.takeWhile Char.isDigit
  match (cs.dropWhile Char.isDigit).dropWhile jsSpace with
  | ',' :: r2 =>
    let r3 := r2.dropWhile jsSpace
    !d1.isEmpty && !(r3.takeWhile Char.isDigit).isEmpty &&
      (r3.dropWhile Char.isDigit).isEmpty
  | _ => false

/-- The claim's pattern, word for word: `optional-whitespace digits
optional-whitespace , optional-whitespace digits`. -/
def specPatternC4 (s : String) : Bool := patC4core (s.toList.dropWhile jsSpace)

/-- The amended pattern: `digits optional-whitespace , optional-whitespace
digits` — no leading whitespace. -/
def amendedPatternC4 (s : String) : Bool := patC4core s.toList

/-- A straight run of `n` 4-connected coordinates starting at `(x0, y0)`,
horizontal or vertical. -/
def linePts (n x0 y0 : Nat) (horiz : Bool) : List (Nat × Nat) :=
  (List.range n).map fun i => if horiz then (x0 + i, y0) else (x0, y0 + i)

/-- The running maximum of the x values, as computed by the `parsePoints`
loop (`Math.max` folded from `-1`). -/
def maxXOf (pts : List (Nat × Nat)) : Int :=
  pts.foldl (fun m p => max m (p.1 : Int)) (-1)

/-- The running maximum of the y values. -/
def maxYOf (pts : List (Nat × Nat)) : Int :=
  pts.foldl (fun m p => max m (p.2 : Int)) (-1)

/-- The flattened scan sequence of `findParcels`: all positions in x-major
order. -/
def allPositions (maxX maxY : Int) : List Pt :=
  (intsUpTo maxX).flatMap fun x => (intsUpTo maxY).map fun y => (x, y)

/-- The scan of `findParcels` over an explicit list of positions (the
nested x/y loops, flattened; proved equal to `findParcelsO` below). -/
def scanAll (maxX maxY : Int) : List Pt → Grid → Option (List Nat × Grid)
  | [], g => some ([], g)
  | q :: rest, g =>
    if gridGet g q.1 q.2 != 0 then
      match traceParcel g q.1 q.2 maxX maxY with
      | none => none
      | some (per, g') => (scanAll maxX maxY rest g').map fun r => (per :: r.1, r.2)
    else scanAll maxX maxY rest g

/-- `p` lies within the axis limits `[0..maxX] × [0..maxY]`. -/
def PtIn (maxX maxY : Int) (p : Pt) : Prop :=
  0 ≤ p.1 ∧ p.1 ≤ maxX ∧ 0 ≤ p.2 ∧ p.2 ≤ maxY

/-- Number of in-bounds cells not yet in the seen set (the trace loop's
termination measure, together with the stack length). -/
def unseenCard (maxX maxY : Int) (seen : List Pt) : Nat :=
  ((Finset.Icc (0 : Int) maxX ×ˢ Finset.Icc (0 : Int) maxY).filter fun c => c ∉ seen).card

/-- Parsed coordinate pairs, as integer points. -/
def ptsToInt (pts : List (Nat × Nat)) : List Pt :=
  pts.map fun q => ((q.1 : Int), (q.2 : Int))

/-- Invariant of the `findParcels` scan, relative to the grid `g0` the scan
started from.  `R` is the list of positions still to visit, `g` the current
grid, `found` the discoveries so far: each paired with its discovery cell.
The fields: remaining positions are scan-increasing; the grid keeps its
shape; the current occupancy is the original minus all found components;
every found entry is a component of `g0` with its scan-least cell as
discovery cell; every occupied cell is still to be visited or already
found; discovery cells are scan-increasing and precede all remaining
positions; and every in-bounds cell is still to come or scan-precedes
everything still to come. -/
def ScanInv (g0 : Grid) (maxX maxY : Int) (R : List Pt) (g : Grid)
    (found : List (Pt × Finset Pt)) : Prop :=
  R.Pairwise scanLT ∧
  RectGrid g maxX maxY ∧
  (∀ c : Pt, Occ g c ↔ (Occ g0 c ∧ ∀ e ∈ found, c ∉ e.2)) ∧
  (∀ e ∈ found, Occ g0 e.1 ∧ (∀ x, x ∈ e.2 ↔ Reach g0 e.1 x) ∧ leastCell e.2 e.1) ∧
  (∀ c : Pt, Occ g0 c → c ∈ R ∨ ∃ e ∈ found, c ∈ e.2) ∧
  (found.map Prod.fst).Pairwise scanLT ∧
  (∀ e ∈ found, ∀ r ∈ R, scanLT e.1 r) ∧
  (∀ c : Pt, PtIn maxX maxY c → c ∈ R ∨ ∀ r ∈ R, scanLT c r)

/-- The i-th cell of a straight run from `(x0, y0)`: x grows when
horizontal, y grows when vertical. -/
def lineCell (x0 y0 : Nat) (horiz : Bool) (i : Nat) : Pt :=
  ((x0 : Int) + (if horiz then (i : Int) else 0),
   (y0 : Int) + (if horiz then 0 else (i : Int)))

/-- The grid `parsePoints` builds for a straight run: marked cells of the
run, sized by the run's fold-computed per-axis maxima. -/
def lineGrid (n x0 y0 : Nat) (horiz : Bool) : Grid :=
  buildGrid (linePts n x0 y0 horiz) (maxXOf (linePts n x0 y0 horiz))
    (maxYOf (linePts n x0 y0 horiz))

-- ### THEOREMS ###

/-! ## Grid access lemmas -/

theorem gridGet_def_pos {g : Grid} {x y : Int} (hx : 0 ≤ x) (hy : 0 ≤ y) :
    gridGet g x y = (g.getD x.toNat []).getD y.toNat 0 := by
  simp [gridGet, hx, hy]

theorem occ_structural {g : Grid} {x y : Int} (h : gridGet g x y ≠ 0) :
    0 ≤ x ∧ 0 ≤ y ∧ x.toNat < g.length ∧ y.toNat < (g.getD x.toNat []).length := by
  by_cases hx : 0 ≤ x
  · by_cases hy : 0 ≤ y
    · rw [gridGet_def_pos hx hy] at h
      refine ⟨hx, hy, ?_, ?_⟩
      · by_contra hlen
        push_neg at hlen
        rw [List.getD_eq_default g [] hlen] at h
        simp [List.getD] at h
      · by_contra hlen
        push_neg at hlen
        rw [List.getD_eq_default _ 0 hlen] at h
        exact h rfl
    · simp [gridGet, hx, hy] at h
  · simp [gridGet, hx] at h

theorem length_setCell (g : Grid) (x y : Int) (v : Nat) :
    (setCell g x y v).length = g.length := by
  unfold setCell; split <;> simp

theorem rect_setCell {g : Grid} {mX mY : Int} (hr : RectGrid g mX mY)
    (x y : Int) (v : Nat) : RectGrid (setCell g x y v) mX mY := by
  obtain ⟨hlen, hrows⟩ := hr
  unfold setCell
  split
  · by_cases hx : x.toNat < g.length
    · refine ⟨by simpa using hlen, ?_⟩
      intro row hrow
      rcases List.mem_or_eq_of_mem_set hrow with h | h
      · exact hrows row h
      · subst h
        rw [List.length_set]
        refine hrows _ ?_
        rw [List.getD_eq_getElem g [] hx]
        exact List.getElem_mem hx
    · rw [List.set_eq_of_length_le (by omega)]
      exact ⟨hlen, hrows⟩
  · exact ⟨hlen, hrows⟩

theorem gridGet_setCell_self {g : Grid} {x y : Int}
    (hx : 0 ≤ x) (hy : 0 ≤ y) (hxl : x.toNat < g.length)
    (hyl : y.toNat < (g.getD x.toNat []).length) (v : Nat) :
    gridGet (setCell g x y v) x y = v := by
  rw [setCell, if_pos ⟨hx, hy⟩, gridGet_def_pos hx hy]
  rw [List.getD_eq_getElem _ [] (by simpa using hxl), List.getElem_set_self (by simpa using hxl)]
  rw [List.getD_eq_getElem _ 0 (by simpa using hyl), List.getElem_set_self (by simpa using hyl)]

theorem gridGet_setCell_ne {g : Grid} {x y x' y' : Int}
    (hne : (x', y') ≠ (x, y)) (v : Nat) :
    gridGet (setCell g x y v) x' y' = gridGet g x' y' := by
  unfold setCell
  split
  case isFalse => rfl
  case isTrue hpos =>
    obtain ⟨hx, hy⟩ := hpos
    by_cases hx' : 0 ≤ x'
    · by_cases hy' : 0 ≤ y'
      · rw [gridGet_def_pos hx' hy', gridGet_def_pos hx' hy']
        by_cases hxx : x'.toNat = x.toNat
        · have hxeq : x' = x := by omega
          have hyne : y'.toNat ≠ y.toNat := by
            have : y' ≠ y := by
              intro hh
              exact hne (by simp [hxeq, hh])
            omega
          subst hxeq
          by_cases hxl : x'.toNat < g.length
          · rw [List.getD_eq_getElem _ [] (by simpa using hxl),
              List.getElem_set_self (by simpa using hxl),
              List.getD_eq_getElem g [] hxl]
            rw [List.getD_eq_getElem?_getD, List.getD_eq_getElem?_getD,
              List.getElem?_set_ne (by omega)]
          · rw [List.set_eq_of_length_le (by omega)]
        · have hcol : (List.set g x.toNat ((g.getD x.toNat []).set y.toNat v)).getD x'.toNat []
              = g.getD x'.toNat [] := by
            rw [List.getD_eq_getElem?_getD, List.getD_eq_getElem?_getD,
              List.getElem?_set_ne (by omega)]
            rw [List.getD_eq_getElem?_getD]
          rw [hcol]
      · simp [gridGet, hy']
    · simp [gridGet, hx']

theorem rect_length {g : Grid} {mX mY : Int} (hr : RectGrid g mX mY)
    {x : Int} (hx : 0 ≤ x) (hxm : x ≤ mX) : x.toNat < g.length := by
  obtain ⟨hlen, -⟩ := hr
  omega

theorem rect_row_length {g : Grid} {mX mY : Int} (hr : RectGrid g mX mY)
    {x y : Int} (hx : 0 ≤ x) (hxm : x ≤ mX) (hy : 0 ≤ y) (hym : y ≤ mY) :
    y.toNat < (g.getD x.toNat []).length := by
  obtain ⟨hlen, hrows⟩ := hr
  have hxl : x.toNat < g.length := by omega
  rw [List.getD_eq_getElem g [] hxl, hrows _ (List.getElem_mem hxl)]
  omega

theorem occ_ptIn {g : Grid} {mX mY : Int} (hr : RectGrid g mX mY)
    {c : Pt} (h : Occ g c) : PtIn mX mY c := by
  obtain ⟨hx, hy, hxl, hyl⟩ := occ_structural h
  obtain ⟨hlen, hrows⟩ := hr
  have hrow : (g.getD c.1.toNat []).length = (mY + 1).toNat := by
    refine hrows _ ?_
    rw [List.getD_eq_getElem g [] hxl]
    exact List.getElem_mem hxl
  exact ⟨hx, by omega, hy, by omega⟩

theorem gridGet_setCell_self' {g : Grid} {mX mY : Int} (hr : RectGrid g mX mY)
    {p : Pt} (hp : PtIn mX mY p) (v : Nat) :
    gridGet (setCell g p.1 p.2 v) p.1 p.2 = v :=
  gridGet_setCell_self hp.1 hp.2.2.1 (rect_length hr hp.1 hp.2.1)
    (rect_row_length hr hp.1 hp.2.1 hp.2.2.1 hp.2.2.2) v

theorem getD_replicate' {α : Type} (n : Nat) (a : α) (m : Nat) (d : α) :
    (List.replicate n a).getD m d = if m < n then a else d := by
  rw [List.getD_eq_getElem?_getD, List.getElem?_replicate]
  split <;> rfl

theorem rect_createEmptyGrid (mX mY : Int) :
    RectGrid (createEmptyGrid mX mY) mX mY := by
  constructor
  · simp [createEmptyGrid]
  · intro row hrow
    rw [createEmptyGrid] at hrow
    rw [List.eq_of_mem_replicate hrow]
    simp

theorem gridGet_createEmptyGrid (mX mY x y : Int) :
    gridGet (createEmptyGrid mX mY) x y = 0 := by
  unfold gridGet
  split
  · rw [createEmptyGrid, getD_replicate']
    split
    · rw [getD_replicate']
      split <;> rfl
    · rfl
  · rfl

/-! ## Neighbourhood and reachability lemmas -/

theorem mem_nbrs {n c : Pt} :
    n ∈ nbrs c ↔ (n = (c.1 - 1, c.2) ∨ n = (c.1 + 1, c.2) ∨
      n = (c.1, c.2 - 1) ∨ n = (c.1, c.2 + 1)) := by
  simp [nbrs]

theorem nbrs_symm {a b : Pt} : a ∈ nbrs b ↔ b ∈ nbrs a := by
  simp only [mem_nbrs, Prod.ext_iff]
  omega

theorem not_self_mem_nbrs (c : Pt) : c ∉ nbrs c := by
  simp only [mem_nbrs, Prod.ext_iff]
  omega

theorem nbrs_nodup (c : Pt) : (nbrs c).Nodup := by
  simp only [nbrs, List.nodup_cons, List.mem_cons, List.mem_singleton,
    List.not_mem_nil, List.nodup_nil, and_true, not_or, Prod.mk.injEq,
    not_and, or_false]
  refine ⟨⟨?_, ?_, ?_⟩, ⟨?_, ?_⟩, ?_, ?_⟩ <;> (intros; first | omega | trivial)

theorem linked_symm {g : Grid} {a b : Pt} (h : Linked g a b) : Linked g b a :=
  ⟨h.2.1, h.1, nbrs_symm.mpr h.2.2⟩

theorem reach_occ {g : Grid} {a b : Pt} (ha : Occ g a) (h : Reach g a b) :
    Occ g b := by
  induction h with
  | refl => exact ha
  | tail _ l _ => exact l.2.1

theorem reach_symm {g : Grid} {a b : Pt} (h : Reach g a b) : Reach g b a :=
  Relation.ReflTransGen.symmetric (fun _ _ hl => linked_symm hl) h

theorem reach_mono {g g' : Grid} (hocc : ∀ c, Occ g' c → Occ g c)
    {a b : Pt} (h : Reach g' a b) : Reach g a b :=
  Relation.ReflTransGen.mono
    (fun _ _ hl => ⟨hocc _ hl.1, hocc _ hl.2.1, hl.2.2⟩) h

theorem reach_restrict {g g' : Grid} {a : Pt}
    (hsup : ∀ c, Reach g a c → Occ g' c) {b : Pt} (h : Reach g a b) :
    Reach g' a b := by
  induction h with
  | refl => exact Relation.ReflTransGen.refl
  | tail hr l ih =>
    exact ih.tail ⟨hsup _ hr, hsup _ (hr.tail l), l.2.2⟩

theorem reach_congr {g : Grid} {a b : Pt} (hab : Reach g a b) (x : Pt) :
    Reach g a x ↔ Reach g b x :=
  ⟨fun h => (reach_symm hab).trans h, fun h => hab.trans h⟩

/-! ## Grid construction lemmas -/

theorem rect_foldl_set (pts : List (Nat × Nat)) {g : Grid} {mX mY : Int}
    (hr : RectGrid g mX mY) :
    RectGrid (pts.foldl (fun g p => setCell g (p.1 : Int) (p.2 : Int) 1) g) mX mY := by
  induction pts generalizing g with
  | nil => exact hr
  | cons q rest ih => exact ih (rect_setCell hr _ _ _)

theorem buildGrid_rect (pts : List (Nat × Nat)) (mX mY : Int) :
    RectGrid (buildGrid pts mX mY) mX mY :=
  rect_foldl_set pts (rect_createEmptyGrid mX mY)

theorem gridGet_foldl_set {pts : List (Nat × Nat)} {mX mY : Int}
    (hpts : ∀ q ∈ pts, (q.1 : Int) ≤ mX ∧ (q.2 : Int) ≤ mY) :
    ∀ {g : Grid}, RectGrid g mX mY → ∀ x y : Int,
    gridGet (pts.foldl (fun g p => setCell g (p.1 : Int) (p.2 : Int) 1) g) x y =
      if (x, y) ∈ ptsToInt pts then 1 else gridGet g x y := by
  induction pts with
  | nil => intro g _ x y; simp [ptsToInt]
  | cons q rest ih =>
    intro g hr x y
    have hq := hpts q (List.mem_cons_self q rest)
    have hrest : ∀ p ∈ rest, (p.1 : Int) ≤ mX ∧ (p.2 : Int) ≤ mY :=
      fun p hp => hpts p (List.mem_cons_of_mem q hp)
    rw [List.foldl_cons, ih hrest (rect_setCell hr _ _ _) x y]
    by_cases hmem : (x, y) ∈ ptsToInt rest
    · rw [if_pos hmem, if_pos]
      simp only [ptsToInt, List.map_cons, List.mem_cons]
      right
      simpa [ptsToInt] using hmem
    · rw [if_neg hmem]
      by_cases heq : (x, y) = ((q.1 : Int), (q.2 : Int))
      · have hx : x = (q.1 : Int) := (Prod.ext_iff.mp heq).1
        have hy : y = (q.2 : Int) := (Prod.ext_iff.mp heq).2
        subst hx; subst hy
        rw [if_pos (by simp [ptsToInt])]
        exact @gridGet_setCell_self' g mX mY hr ((q.1 : Int), (q.2 : Int))
          ⟨Int.natCast_nonneg _, hq.1, Int.natCast_nonneg _, hq.2⟩ 1
      · rw [gridGet_setCell_ne heq, if_neg]
        simp only [ptsToInt, List.map_cons, List.mem_cons]
        rintro (h | h)
        · exact heq h
        · exact hmem (by simpa [ptsToInt] using h)

theorem gridGet_buildGrid {pts : List (Nat × Nat)} {mX mY : Int}
    (hpts : ∀ q ∈ pts, (q.1 : Int) ≤ mX ∧ (q.2 : Int) ≤ mY) (x y : Int) :
    gridGet (buildGrid pts mX mY) x y = if (x, y) ∈ ptsToInt pts then 1 else 0 := by
  rw [buildGrid, gridGet_foldl_set hpts (rect_createEmptyGrid mX mY),
    gridGet_createEmptyGrid]

/-! ## Validation loop lemmas -/

theorem parseLoop_cons_none {s : String} {rest : List String}
    {acc : List (Nat × Nat)} {mX mY : Int} (hm : matchPoint s = none) :
    parseLoop (s :: rest) acc mX mY = Except.error typeError := by
  simp [parseLoop, hm]

theorem parseLoop_cons_range {s : String} {rest : List String}
    {acc : List (Nat × Nat)} {mX mY : Int} {x y : Nat}
    (hm : matchPoint s = some (x, y)) (hr : MAX_VALUE < x ∨ MAX_VALUE < y) :
    parseLoop (s :: rest) acc mX mY = Except.error rangeError := by
  simp only [parseLoop, hm]
  rw [if_pos (by simp only [Bool.or_eq_true, decide_eq_true_eq]; exact hr)]

theorem parseLoop_cons_ok {s : String} {rest : List String}
    {acc : List (Nat × Nat)} {mX mY : Int} {x y : Nat}
    (hm : matchPoint s = some (x, y)) (hx : x ≤ MAX_VALUE) (hy : y ≤ MAX_VALUE) :
    parseLoop (s :: rest) acc mX mY =
      parseLoop rest (acc ++ [(x, y)]) (max mX (x : Int)) (max mY (y : Int)) := by
  simp only [parseLoop, hm]
  rw [if_neg (by simp only [Bool.or_eq_true, decide_eq_true_eq]; omega)]

theorem parseLoop_append (l1 l2 : List String) :
    ∀ acc mX mY, parseLoop (l1 ++ l2) acc mX mY =
      (parseLoop l1 acc mX mY).bind fun r => parseLoop l2 r.1 r.2.1 r.2.2 := by
  induction l1 with
  | nil => intro acc mX mY; simp [parseLoop, Except.bind]
  | cons s rest ih =>
    intro acc mX mY
    rw [List.cons_append]
    match hm : matchPoint s with
    | none => rw [parseLoop_cons_none hm, parseLoop_cons_none hm]; rfl
    | some (x, y) =>
      by_cases hr : MAX_VALUE < x ∨ MAX_VALUE < y
      · rw [parseLoop_cons_range hm hr, parseLoop_cons_range hm hr]; rfl
      · push_neg at hr
        rw [parseLoop_cons_ok hm hr.1 hr.2, parseLoop_cons_ok hm hr.1 hr.2]
        exact ih _ _ _

theorem parseLoop_ok_facts : ∀ (ps : List String) (acc : List (Nat × Nat))
    (mX0 mY0 : Int) (res : List (Nat × Nat)) (mX mY : Int),
    parseLoop ps acc mX0 mY0 = Except.ok (res, mX, mY) →
    (∀ v ∈ acc, v ∈ res) ∧ mX0 ≤ mX ∧ mY0 ≤ mY := by
  intro ps
  induction ps with
  | nil =>
    intro acc mX0 mY0 res mX mY h
    simp only [parseLoop, Except.ok.injEq, Prod.mk.injEq] at h
    obtain ⟨h1, h2, h3⟩ := h
    subst h1; subst h2; subst h3
    exact ⟨fun v hv => hv, le_refl _, le_refl _⟩
  | cons s rest ih =>
    intro acc mX0 mY0 res mX mY h
    match hm : matchPoint s with
    | none => rw [parseLoop_cons_none hm] at h; exact absurd h (by simp)
    | some (x, y) =>
      by_cases hr : MAX_VALUE < x ∨ MAX_VALUE < y
      · rw [parseLoop_cons_range hm hr] at h; exact absurd h (by simp)
      · push_neg at hr
        rw [parseLoop_cons_ok hm hr.1 hr.2] at h
        obtain ⟨hsub, hx, hy⟩ := ih _ _ _ _ _ _ h
        refine ⟨fun v hv => hsub v (List.mem_append_left _ hv), ?_, ?_⟩
        · calc mX0 ≤ max mX0 (x : Int) := le_max_left _ _
            _ ≤ mX := hx
        · calc mY0 ≤ max mY0 (y : Int) := le_max_left _ _
            _ ≤ mY := hy

theorem parseLoop_mem : ∀ (ps : List String) (acc : List (Nat × Nat))
    (mX0 mY0 : Int) (res : List (Nat × Nat)) (mX mY : Int),
    parseLoop ps acc mX0 mY0 = Except.ok (res, mX, mY) →
    ∀ s ∈ ps, ∃ v : Nat × Nat, matchPoint s = some v ∧
      v.1 ≤ MAX_VALUE ∧ v.2 ≤ MAX_VALUE ∧ v ∈ res ∧
      (v.1 : Int) ≤ mX ∧ (v.2 : Int) ≤ mY := by
  intro ps
  induction ps with
  | nil => intro _ _ _ _ _ _ _ s hs; exact absurd hs (List.not_mem_nil s)
  | cons t rest ih =>
    intro acc mX0 mY0 res mX mY h s hs
    match hm : matchPoint t with
    | none => rw [parseLoop_cons_none hm] at h; exact absurd h (by simp)
    | some (x, y) =>
      by_cases hr : MAX_VALUE < x ∨ MAX_VALUE < y
      · rw [parseLoop_cons_range hm hr] at h; exact absurd h (by simp)
      · push_neg at hr
        rw [parseLoop_cons_ok hm hr.1 hr.2] at h
        rcases List.mem_cons.mp hs with hst | hsrest
        · subst hst
          obtain ⟨hsub, hx, hy⟩ := parseLoop_ok_facts _ _ _ _ _ _ _ h
          refine ⟨(x, y), hm, hr.1, hr.2, ?_, ?_, ?_⟩
          · exact hsub _ (List.mem_append_right _ (List.mem_singleton.mpr rfl))
          · calc (x : Int) ≤ max mX0 (x : Int) := le_max_right _ _
              _ ≤ mX := hx
          · calc (y : Int) ≤ max mY0 (y : Int) := le_max_right _ _
              _ ≤ mY := hy
        · exact ih _ _ _ _ _ _ h s hsrest

theorem parseLoop_res_le : ∀ (ps : List String) (acc : List (Nat × Nat))
    (mX0 mY0 : Int) (res : List (Nat × Nat)) (mX mY : Int),
    parseLoop ps acc mX0 mY0 = Except.ok (res, mX, mY) →
    (∀ v ∈ acc, (v.1 : Int) ≤ mX0 ∧ (v.2 : Int) ≤ mY0) →
    ∀ v ∈ res, (v.1 : Int) ≤ mX ∧ (v.2 : Int) ≤ mY := by
  intro ps
  induction ps with
  | nil =>
    intro acc mX0 mY0 res mX mY h hacc
    simp only [parseLoop, Except.ok.injEq, Prod.mk.injEq] at h
    obtain ⟨h1, h2, h3⟩ := h
    subst h1; subst h2; subst h3
    exact hacc
  | cons s rest ih =>
    intro acc mX0 mY0 res mX mY h hacc
    match hm : matchPoint s with
    | none => rw [parseLoop_cons_none hm] at h; exact absurd h (by simp)
    | some (x, y) =>
      by_cases hr : MAX_VALUE < x ∨ MAX_VALUE < y
      · rw [parseLoop_cons_range hm hr] at h; exact absurd h (by simp)
      · push_neg at hr
        rw [parseLoop_cons_ok hm hr.1 hr.2] at h
        refine ih _ _ _ _ _ _ h ?_
        intro v hv
        rcases List.mem_append.mp hv with hva | hvn
        · obtain ⟨h1, h2⟩ := hacc v hva
          exact ⟨le_trans h1 (le_max_left _ _), le_trans h2 (le_max_left _ _)⟩
        · rw [List.mem_singleton.mp hvn]
          exact ⟨le_max_right _ _, le_max_right _ _⟩

theorem parseLoop_error_first : ∀ (pre : List String) (s : String)
    (post : List String) (acc : List (Nat × Nat)) (mX mY : Int),
    (∀ t ∈ pre, validElem t = true) → validElem s = false →
    parseLoop (pre ++ s :: post) acc mX mY = Except.error (elemErrorOf s) := by
  intro pre
  induction pre with
  | nil =>
    intro s post acc mX mY _ hbad
    rw [List.nil_append]
    match hm : matchPoint s with
    | none => rw [parseLoop_cons_none hm, elemErrorOf, hm]
    | some (x, y) =>
      rw [validElem, hm] at hbad
      simp only [Bool.and_eq_false_iff, decide_eq_false_iff_not, not_le] at hbad
      rw [parseLoop_cons_range hm (by omega), elemErrorOf, hm]
  | cons t rest ih =>
    intro s post acc mX mY hpre hbad
    have ht := hpre t (List.mem_cons_self t rest)
    rw [validElem] at ht
    match hm : matchPoint t with
    | none => rw [hm] at ht; exact absurd ht (by simp)
    | some (x, y) =>
      rw [hm] at ht
      simp only [Bool.and_eq_true, decide_eq_true_eq] at ht
      rw [List.cons_append, parseLoop_cons_ok hm ht.1 ht.2]
      exact ih s post _ _ _ (fun u hu => hpre u (List.mem_cons_of_mem t hu)) hbad

/-! ## Trace loop: termination measure and direction evaluation -/

theorem unseenCard_cons {maxX maxY : Int} {p : Pt} {seen : List Pt}
    (hp : PtIn maxX maxY p) (hnp : p ∉ seen) :
    unseenCard maxX maxY (p :: seen) + 1 = unseenCard maxX maxY seen := by
  unfold unseenCard
  have hmem : p ∈ (Finset.Icc (0 : Int) maxX ×ˢ Finset.Icc (0 : Int) maxY).filter
      (fun c => c ∉ seen) := by
    rw [Finset.mem_filter, Finset.mem_product, Finset.mem_Icc, Finset.mem_Icc]
    exact ⟨⟨⟨hp.1, hp.2.1⟩, ⟨hp.2.2.1, hp.2.2.2⟩⟩, hnp⟩
  have heq : (Finset.Icc (0 : Int) maxX ×ˢ Finset.Icc (0 : Int) maxY).filter
      (fun c => c ∉ p :: seen) =
      ((Finset.Icc (0 : Int) maxX ×ˢ Finset.Icc (0 : Int) maxY).filter
      (fun c => c ∉ seen)).erase p := by
    ext q
    rw [Finset.mem_erase, Finset.mem_filter, Finset.mem_filter, List.mem_cons]
    constructor
    · rintro ⟨hq, hmemq⟩
      push_neg at hmemq
      exact ⟨hmemq.1, hq, hmemq.2⟩
    · rintro ⟨hne, hq, hnmem⟩
      refine ⟨hq, ?_⟩
      push_neg
      exact ⟨hne, hnmem⟩
  rw [heq, Finset.card_erase_of_mem hmem]
  have : 0 < ((Finset.Icc (0 : Int) maxX ×ˢ Finset.Icc (0 : Int) maxY).filter
      (fun c => c ∉ seen)).card := Finset.card_pos.mpr ⟨p, hmem⟩
  omega

theorem dirStep_eval {g1 g0 : Grid} {seen : List Pt} {b : Bool} {n : Pt}
    (hA : gridGet g1 n.1 n.2 = if n ∈ seen then 0 else gridGet g0 n.1 n.2)
    (hb : Occ g0 n → b = true) :
    dirStep g1 seen b n =
      (if Occ g0 n ∧ n ∉ seen then [n] else [],
       if ¬ Occ g0 n ∧ n ∉ seen then 1 else 0) := by
  unfold dirStep isNewNeighbour
  by_cases hs : n ∈ seen
  · rw [if_pos hs] at hA
    have hget : (gridGet g1 n.1 n.2 != 0) = false := by simp [hA]
    rw [if_neg (by simp [hget]), if_pos ?_]
    · rw [if_neg (by simp [hs]), if_neg (by simp [hs])]
    · exact (by simpa using hs)
  · rw [if_neg hs] at hA
    by_cases ho : Occ g0 n
    · rw [hb ho]
      have hget : (gridGet g1 n.1 n.2 != 0) = true := by
        simpa [hA] using ho
      rw [if_pos (by simp [hget, hs]), if_pos ⟨ho, hs⟩,
        if_neg (by rintro ⟨hno, -⟩; exact hno ho)]
    · have h0 : gridGet g0 n.1 n.2 = 0 := by
        by_contra hc; exact ho hc
      have hget : (gridGet g1 n.1 n.2 != 0) = false := by simp [hA, h0]
      rw [if_neg (by simp [hget]), if_neg (by simpa using hs),
        if_neg (by simp [ho]), if_pos ⟨ho, hs⟩]

theorem mem_ite_list {α : Type} {P : Prop} [Decidable P] {n a : α}
    (h : a ∈ (if P then [n] else [])) : P ∧ a = n := by
  split at h
  · simp only [List.mem_singleton] at h
    exact ⟨‹_›, h⟩
  · exact absurd h (List.not_mem_nil a)

theorem length_filter_four {α : Type} (q : α → Bool) (a b c d : α) :
    (List.filter q [a, b, c, d]).length =
      (if q a = true then 1 else 0) + (if q b = true then 1 else 0) +
      (if q c = true then 1 else 0) + (if q d = true then 1 else 0) := by
  cases hqa : q a <;> cases hqb : q b <;> cases hqc : q c <;> cases hqd : q d <;>
    simp [List.filter, hqa, hqb, hqc, hqd]

/-! ## The trace loop computes the component and its perimeter

The work-list invariant: the grid equals the start grid with exactly the
seen cells cleared; seen and stack cells are reachable from the start cell;
every occupied neighbour of a seen cell is seen or stacked; and the open
edge count is the number of (seen cell, direction) pairs whose neighbour is
unoccupied or out of bounds. -/

theorem traceLoop_spec (g0 : Grid) (maxX maxY : Int) (c0 : Pt)
    (hrect0 : RectGrid g0 maxX maxY) (hocc0 : Occ g0 c0) :
    ∀ (fuel : Nat) (grid : Grid) (seen stack : List Pt) (openEdges : Nat),
    5 * unseenCard maxX maxY seen + stack.length + 1 ≤ fuel →
    RectGrid grid maxX maxY →
    (∀ x y : Int, gridGet grid x y = if (x, y) ∈ seen then 0 else gridGet g0 x y) →
    seen.Nodup →
    (∀ c ∈ seen, Reach g0 c0 c) →
    (∀ c ∈ stack, Reach g0 c0 c) →
    (∀ c ∈ seen, ∀ n ∈ nbrs c, Occ g0 n → n ∈ seen ∨ n ∈ stack) →
    (c0 ∈ seen ∨ c0 ∈ stack) →
    openEdges = (seen.map fun c =>
      ((nbrs c).filter fun n => decide (¬ Occ g0 n)).length).sum →
    ∃ (seenF : List Pt) (g2 : Grid),
      traceLoop maxX maxY fuel grid seen openEdges stack =
        some ((seenF.map fun c =>
          ((nbrs c).filter fun n => decide (¬ Occ g0 n)).length).sum, g2) ∧
      seenF.Nodup ∧
      (∀ c, c ∈ seenF ↔ Reach g0 c0 c) ∧
      (∀ x y : Int, gridGet g2 x y = if (x, y) ∈ seenF then 0 else gridGet g0 x y) ∧
      RectGrid g2 maxX maxY := by
  intro fuel
  induction fuel with
  | zero =>
    intro grid seen stack openEdges hfuel _ _ _ _ _ _ _
    omega
  | succ f ih =>
    intro grid seen stack openEdges hfuel hrect hA hnd hseenR hstackR hE hF hG
    match stack, hstackR, hE, hF, hfuel with
    | [], hstackR, hE, hF, hfuel =>
      refine ⟨seen, grid, ?_, hnd, ?_, hA, hrect⟩
      · subst hG; rfl
      · intro c
        refine ⟨hseenR c, fun hr => ?_⟩
        have hr' : Relation.ReflTransGen (Linked g0) c0 c := hr
        induction hr' with
        | refl =>
          rcases hF with h | h
          · exact h
          · exact absurd h (List.not_mem_nil c0)
        | tail hr2 l ihr =>
          rcases hE _ (ihr hr2) _ l.2.2 l.2.1 with h | h
          · exact h
          · exact absurd h (List.not_mem_nil _)
    | p :: rest, hstackR, hE, hF, hfuel =>
      have hpR : Reach g0 c0 p := hstackR p (List.mem_cons_self _ _)
      have hoccp : Occ g0 p := reach_occ hocc0 hpR
      have hpIn : PtIn maxX maxY p := occ_ptIn hrect0 hoccp
      have hrect1 : RectGrid (setCell grid p.1 p.2 0) maxX maxY :=
        rect_setCell hrect _ _ _
      have hAp : gridGet (setCell grid p.1 p.2 0) p.1 p.2 = 0 :=
        gridGet_setCell_self' hrect hpIn 0
      have hA1 : ∀ n : Pt, n ≠ p → gridGet (setCell grid p.1 p.2 0) n.1 n.2 =
          if n ∈ seen then 0 else gridGet g0 n.1 n.2 := by
        intro n hn
        rw [gridGet_setCell_ne (show ((n.1, n.2) : Pt) ≠ (p.1, p.2) from hn)]
        rw [hA n.1 n.2, Prod.mk.eta]
      have hoccseen : ∀ c ∈ seen, Occ g0 c :=
        fun c hc => reach_occ hocc0 (hseenR c hc)
      by_cases hp : p ∈ seen
      · -- already-seen cell popped again: grid write is a no-op, skip it
        have hA' : ∀ x y : Int, gridGet (setCell grid p.1 p.2 0) x y =
            if (x, y) ∈ seen then 0 else gridGet g0 x y := by
          intro x y
          by_cases hxy : ((x, y) : Pt) = p
          · have hx : x = p.1 := (Prod.ext_iff.mp hxy).1
            have hy : y = p.2 := (Prod.ext_iff.mp hxy).2
            subst hx; subst hy
            rw [hAp, if_pos (show ((p.1, p.2) : Pt) ∈ seen from Prod.mk.eta ▸ hp)]
          · exact hA1 (x, y) hxy
        obtain ⟨seenF, g2, hrun, hc1, hc2, hc3, hc4⟩ :=
          ih (setCell grid p.1 p.2 0) seen rest openEdges
            (by simp only [List.length_cons] at hfuel; omega) hrect1 hA' hnd hseenR
            (fun c hc => hstackR c (List.mem_cons_of_mem _ hc))
            (fun c hc n hn ho => by
              rcases hE c hc n hn ho with h | h
              · exact Or.inl h
              · rcases List.mem_cons.mp h with h2 | h2
                · exact Or.inl (h2 ▸ hp)
                · exact Or.inr h2)
            (by
              rcases hF with h | h
              · exact Or.inl h
              · rcases List.mem_cons.mp h with h2 | h2
                · exact Or.inl (h2 ▸ hp)
                · exact Or.inr h2)
            hG
        refine ⟨seenF, g2, ?_, hc1, hc2, hc3, hc4⟩
        rw [traceLoop]
        rw [if_pos (show ((p.1, p.2) : Pt) ∈ seen from Prod.mk.eta ▸ hp)]
        exact hrun
      · -- fresh cell: expand its four neighbours
        have hnl : ((p.1 - 1, p.2) : Pt) ≠ p := by
          intro h; have := (Prod.ext_iff.mp h).1; omega
        have hnr : ((p.1 + 1, p.2) : Pt) ≠ p := by
          intro h; have := (Prod.ext_iff.mp h).1; omega
        have hnd2 : ((p.1, p.2 - 1) : Pt) ≠ p := by
          intro h; have := (Prod.ext_iff.mp h).2; omega
        have hnu : ((p.1, p.2 + 1) : Pt) ≠ p := by
          intro h; have := (Prod.ext_iff.mp h).2; omega
        have hbl : Occ g0 ((p.1 - 1, p.2) : Pt) → decide (0 < p.1) = true := by
          intro ho
          have h1 : (0 : Int) ≤ p.1 - 1 := (occ_ptIn hrect0 ho).1
          simp only [decide_eq_true_eq]; omega
        have hbr : Occ g0 ((p.1 + 1, p.2) : Pt) → decide (p.1 < maxX) = true := by
          intro ho
          have h1 : p.1 + 1 ≤ maxX := (occ_ptIn hrect0 ho).2.1
          simp only [decide_eq_true_eq]; omega
        have hbd : Occ g0 ((p.1, p.2 - 1) : Pt) → decide (0 < p.2) = true := by
          intro ho
          have h1 : (0 : Int) ≤ p.2 - 1 := (occ_ptIn hrect0 ho).2.2.1
          simp only [decide_eq_true_eq]; omega
        have hbu : Occ g0 ((p.1, p.2 + 1) : Pt) → decide (p.2 < maxY) = true := by
          intro ho
          have h1 : p.2 + 1 ≤ maxY := (occ_ptIn hrect0 ho).2.2.2
          simp only [decide_eq_true_eq]; omega
        have el := dirStep_eval (hA1 _ hnl) hbl
        have er := dirStep_eval (hA1 _ hnr) hbr
        have ed := dirStep_eval (hA1 _ hnd2) hbd
        have eu := dirStep_eval (hA1 _ hnu) hbu
        have hpush : ∀ n : Pt, n ∈ nbrs p → Occ g0 n → Reach g0 c0 n :=
          fun n hn ho => hpR.tail ⟨hoccp, ho, hn⟩
        -- the new state after expanding p
        have hfuel' : 5 * unseenCard maxX maxY (p :: seen) +
            ((if Occ g0 ((p.1, p.2 + 1) : Pt) ∧ ((p.1, p.2 + 1) : Pt) ∉ seen
                then [((p.1, p.2 + 1) : Pt)] else []) ++
             (if Occ g0 ((p.1, p.2 - 1) : Pt) ∧ ((p.1, p.2 - 1) : Pt) ∉ seen
                then [((p.1, p.2 - 1) : Pt)] else []) ++
             (if Occ g0 ((p.1 + 1, p.2) : Pt) ∧ ((p.1 + 1, p.2) : Pt) ∉ seen
                then [((p.1 + 1, p.2) : Pt)] else []) ++
             (if Occ g0 ((p.1 - 1, p.2) : Pt) ∧ ((p.1 - 1, p.2) : Pt) ∉ seen
                then [((p.1 - 1, p.2) : Pt)] else []) ++ rest).length + 1 ≤ f := by
          have hcard := unseenCard_cons hpIn hp
          have l1 : (if Occ g0 ((p.1, p.2 + 1) : Pt) ∧ ((p.1, p.2 + 1) : Pt) ∉ seen
              then [((p.1, p.2 + 1) : Pt)] else []).length ≤ 1 := by split <;> simp
          have l2 : (if Occ g0 ((p.1, p.2 - 1) : Pt) ∧ ((p.1, p.2 - 1) : Pt) ∉ seen
              then [((p.1, p.2 - 1) : Pt)] else []).length ≤ 1 := by split <;> simp
          have l3 : (if Occ g0 ((p.1 + 1, p.2) : Pt) ∧ ((p.1 + 1, p.2) : Pt) ∉ seen
              then [((p.1 + 1, p.2) : Pt)] else []).length ≤ 1 := by split <;> simp
          have l4 : (if Occ g0 ((p.1 - 1, p.2) : Pt) ∧ ((p.1 - 1, p.2) : Pt) ∉ seen
              then [((p.1 - 1, p.2) : Pt)] else []).length ≤ 1 := by split <;> simp
          simp only [List.length_append, List.length_cons] at hfuel ⊢
          omega
        have hA2 : ∀ x y : Int, gridGet (setCell grid p.1 p.2 0) x y =
            if (x, y) ∈ p :: seen then 0 else gridGet g0 x y := by
          intro x y
          by_cases hxy : ((x, y) : Pt) = p
          · have hx : x = p.1 := (Prod.ext_iff.mp hxy).1
            have hy : y = p.2 := (Prod.ext_iff.mp hxy).2
            subst hx; subst hy
            rw [hAp, if_pos (show ((p.1, p.2) : Pt) ∈ p :: seen from
              Prod.mk.eta ▸ List.mem_cons_self p seen)]
          · rw [hA1 (x, y) hxy]
            by_cases hm : ((x, y) : Pt) ∈ seen
            · rw [if_pos hm, if_pos (List.mem_cons_of_mem _ hm)]
            · rw [if_neg hm, if_neg (by
                intro hcon
                rcases List.mem_cons.mp hcon with h | h
                · exact hxy h
                · exact hm h)]
        have hseenR' : ∀ c ∈ p :: seen, Reach g0 c0 c := by
          intro c hc
          rcases List.mem_cons.mp hc with h | h
          · exact h ▸ hpR
          · exact hseenR c h
        have hstackR' : ∀ c ∈
            ((if Occ g0 ((p.1, p.2 + 1) : Pt) ∧ ((p.1, p.2 + 1) : Pt) ∉ seen
                then [((p.1, p.2 + 1) : Pt)] else []) ++
             (if Occ g0 ((p.1, p.2 - 1) : Pt) ∧ ((p.1, p.2 - 1) : Pt) ∉ seen
                then [((p.1, p.2 - 1) : Pt)] else []) ++
             (if Occ g0 ((p.1 + 1, p.2) : Pt) ∧ ((p.1 + 1, p.2) : Pt) ∉ seen
                then [((p.1 + 1, p.2) : Pt)] else []) ++
             (if Occ g0 ((p.1 - 1, p.2) : Pt) ∧ ((p.1 - 1, p.2) : Pt) ∉ seen
                then [((p.1 - 1, p.2) : Pt)] else []) ++ rest), Reach g0 c0 c := by
          intro c hc
          rcases List.mem_append.mp hc with h | h
          · rcases List.mem_append.mp h with h | h
            · rcases List.mem_append.mp h with h | h
              · rcases List.mem_append.mp h with h | h
                · obtain ⟨hcond, rfl⟩ := mem_ite_list h
                  exact hpush _ (by simp [mem_nbrs]) hcond.1
                · obtain ⟨hcond, rfl⟩ := mem_ite_list h
                  exact hpush _ (by simp [mem_nbrs]) hcond.1
              · obtain ⟨hcond, rfl⟩ := mem_ite_list h
                exact hpush _ (by simp [mem_nbrs]) hcond.1
            · obtain ⟨hcond, rfl⟩ := mem_ite_list h
              exact hpush _ (by simp [mem_nbrs]) hcond.1
          · exact hstackR c (List.mem_cons_of_mem _ h)
        have hE' : ∀ c ∈ p :: seen, ∀ n ∈ nbrs c, Occ g0 n →
            n ∈ p :: seen ∨ n ∈
            ((if Occ g0 ((p.1, p.2 + 1) : Pt) ∧ ((p.1, p.2 + 1) : Pt) ∉ seen
                then [((p.1, p.2 + 1) : Pt)] else []) ++
             (if Occ g0 ((p.1, p.2 - 1) : Pt) ∧ ((p.1, p.2 - 1) : Pt) ∉ seen
                then [((p.1, p.2 - 1) : Pt)] else []) ++
             (if Occ g0 ((p.1 + 1, p.2) : Pt) ∧ ((p.1 + 1, p.2) : Pt) ∉ seen
                then [((p.1 + 1, p.2) : Pt)] else []) ++
             (if Occ g0 ((p.1 - 1, p.2) : Pt) ∧ ((p.1 - 1, p.2) : Pt) ∉ seen
                then [((p.1 - 1, p.2) : Pt)] else []) ++ rest) := by
          intro c hc n hn ho
          rcases List.mem_cons.mp hc with hcp | hcs
          · subst hcp
            by_cases hns : n ∈ seen
            · exact Or.inl (List.mem_cons_of_mem _ hns)
            · right
              rcases mem_nbrs.mp hn with h4 | h4 | h4 | h4 <;> subst h4
              · exact List.mem_append_left _ (List.mem_append_right _
                  (by rw [if_pos ⟨ho, hns⟩]; exact List.mem_singleton.mpr rfl))
              · exact List.mem_append_left _ (List.mem_append_left _
                  (List.mem_append_right _
                  (by rw [if_pos ⟨ho, hns⟩]; exact List.mem_singleton.mpr rfl)))
              · exact List.mem_append_left _ (List.mem_append_left _
                  (List.mem_append_left _ (List.mem_append_right _
                  (by rw [if_pos ⟨ho, hns⟩]; exact List.mem_singleton.mpr rfl))))
              · exact List.mem_append_left _ (List.mem_append_left _
                  (List.mem_append_left _ (List.mem_append_left _
                  (by rw [if_pos ⟨ho, hns⟩]; exact List.mem_singleton.mpr rfl))))
          · rcases hE c hcs n hn ho with h | h
            · exact Or.inl (List.mem_cons_of_mem _ h)
            · rcases List.mem_cons.mp h with h2 | h2
              · exact Or.inl (h2 ▸ List.mem_cons_self _ _)
              · exact Or.inr (List.mem_append_right _ h2)
        have hF' : c0 ∈ p :: seen ∨ c0 ∈
            ((if Occ g0 ((p.1, p.2 + 1) : Pt) ∧ ((p.1, p.2 + 1) : Pt) ∉ seen
                then [((p.1, p.2 + 1) : Pt)] else []) ++
             (if Occ g0 ((p.1, p.2 - 1) : Pt) ∧ ((p.1, p.2 - 1) : Pt) ∉ seen
                then [((p.1, p.2 - 1) : Pt)] else []) ++
             (if Occ g0 ((p.1 + 1, p.2) : Pt) ∧ ((p.1 + 1, p.2) : Pt) ∉ seen
                then [((p.1 + 1, p.2) : Pt)] else []) ++
             (if Occ g0 ((p.1 - 1, p.2) : Pt) ∧ ((p.1 - 1, p.2) : Pt) ∉ seen
                then [((p.1 - 1, p.2) : Pt)] else []) ++ rest) := by
          rcases hF with h | h
          · exact Or.inl (List.mem_cons_of_mem _ h)
          · rcases List.mem_cons.mp h with h2 | h2
            · exact Or.inl (h2 ▸ List.mem_cons_self _ _)
            · exact Or.inr (List.mem_append_right _ h2)
        have hG' : openEdges +
            (if ¬ Occ g0 ((p.1 - 1, p.2) : Pt) ∧ ((p.1 - 1, p.2) : Pt) ∉ seen then 1 else 0) +
            (if ¬ Occ g0 ((p.1 + 1, p.2) : Pt) ∧ ((p.1 + 1, p.2) : Pt) ∉ seen then 1 else 0) +
            (if ¬ Occ g0 ((p.1, p.2 - 1) : Pt) ∧ ((p.1, p.2 - 1) : Pt) ∉ seen then 1 else 0) +
            (if ¬ Occ g0 ((p.1, p.2 + 1) : Pt) ∧ ((p.1, p.2 + 1) : Pt) ∉ seen then 1 else 0) =
            ((p :: seen).map fun c =>
              ((nbrs c).filter fun n => decide (¬ Occ g0 n)).length).sum := by
          have hcnv : ∀ n : Pt, (if ¬ Occ g0 n ∧ n ∉ seen then 1 else 0) =
              (if ¬ Occ g0 n then 1 else 0) := by
            intro n
            by_cases ho : Occ g0 n
            · simp [ho]
            · rw [if_pos ⟨ho, fun hm => ho (hoccseen n hm)⟩, if_pos ho]
          rw [List.map_cons, List.sum_cons, ← hG]
          rw [hcnv, hcnv, hcnv, hcnv]
          have hterm : ((nbrs p).filter fun n => decide (¬ Occ g0 n)).length =
              (if ¬ Occ g0 ((p.1 - 1, p.2) : Pt) then 1 else 0) +
              (if ¬ Occ g0 ((p.1 + 1, p.2) : Pt) then 1 else 0) +
              (if ¬ Occ g0 ((p.1, p.2 - 1) : Pt) then 1 else 0) +
              (if ¬ Occ g0 ((p.1, p.2 + 1) : Pt) then 1 else 0) := by
            rw [show nbrs p = [((p.1 - 1, p.2) : Pt), (p.1 + 1, p.2),
              (p.1, p.2 - 1), (p.1, p.2 + 1)] from rfl, length_filter_four]
            simp only [decide_eq_true_eq]
          rw [hterm]
          generalize (if ¬ Occ g0 ((p.1 - 1, p.2) : Pt) then 1 else 0) = A
          generalize (if ¬ Occ g0 ((p.1 + 1, p.2) : Pt) then 1 else 0) = B
          generalize (if ¬ Occ g0 ((p.1, p.2 - 1) : Pt) then 1 else 0) = C
          generalize (if ¬ Occ g0 ((p.1, p.2 + 1) : Pt) then 1 else 0) = D
          omega
        obtain ⟨seenF, g2, hrun, hc1, hc2, hc3, hc4⟩ :=
          ih (setCell grid p.1 p.2 0) (p :: seen)
            ((if Occ g0 ((p.1, p.2 + 1) : Pt) ∧ ((p.1, p.2 + 1) : Pt) ∉ seen
                then [((p.1, p.2 + 1) : Pt)] else []) ++
             (if Occ g0 ((p.1, p.2 - 1) : Pt) ∧ ((p.1, p.2 - 1) : Pt) ∉ seen
                then [((p.1, p.2 - 1) : Pt)] else []) ++
             (if Occ g0 ((p.1 + 1, p.2) : Pt) ∧ ((p.1 + 1, p.2) : Pt) ∉ seen
                then [((p.1 + 1, p.2) : Pt)] else []) ++
             (if Occ g0 ((p.1 - 1, p.2) : Pt) ∧ ((p.1 - 1, p.2) : Pt) ∉ seen
                then [((p.1 - 1, p.2) : Pt)] else []) ++ rest)
            (openEdges +
              (if ¬ Occ g0 ((p.1 - 1, p.2) : Pt) ∧ ((p.1 - 1, p.2) : Pt) ∉ seen then 1 else 0) +
              (if ¬ Occ g0 ((p.1 + 1, p.2) : Pt) ∧ ((p.1 + 1, p.2) : Pt) ∉ seen then 1 else 0) +
              (if ¬ Occ g0 ((p.1, p.2 - 1) : Pt) ∧ ((p.1, p.2 - 1) : Pt) ∉ seen then 1 else 0) +
              (if ¬ Occ g0 ((p.1, p.2 + 1) : Pt) ∧ ((p.1, p.2 + 1) : Pt) ∉ seen then 1 else 0))
            hfuel' hrect1 hA2 (List.nodup_cons.mpr ⟨hp, hnd⟩) hseenR' hstackR' hE' hF' hG'
        refine ⟨seenF, g2, ?_, hc1, hc2, hc3, hc4⟩
        rw [traceLoop]
        rw [if_neg (show ¬ ((p.1, p.2) : Pt) ∈ seen from hp)]
        rw [el, er, ed, eu]
        exact hrun

/-! ## From the trace loop to `traceParcel` -/

theorem sum_outdeg_eq_perim {g0 : Grid} {seenF : List Pt} (hnd : seenF.Nodup)
    (hiff : ∀ c ∈ seenF, ∀ n ∈ nbrs c, (Occ g0 n ↔ n ∈ seenF)) :
    (seenF.map fun c => ((nbrs c).filter fun n => decide (¬ Occ g0 n)).length).sum
      = perimOf seenF.toFinset := by
  rw [perimOf, List.sum_toFinset _ hnd]
  refine congrArg List.sum (List.map_congr_left ?_)
  intro c hc
  refine congrArg List.length (List.filter_congr ?_)
  intro n hn
  have h2 : (¬ Occ g0 n) ↔ (n ∉ seenF.toFinset) := by
    rw [List.mem_toFinset]
    exact not_congr (hiff c hc n hn)
  exact decide_eq_decide.mpr h2

theorem card_Icc_product (maxX maxY : Int) :
    unseenCard maxX maxY [] = (maxX + 1).toNat * (maxY + 1).toNat := by
  unfold unseenCard
  rw [Finset.filter_true_of_mem (fun c _ => List.not_mem_nil c),
    Finset.card_product, Int.card_Icc, Int.card_Icc]
  simp

theorem traceParcel_spec (g : Grid) (maxX maxY : Int) (c0 : Pt)
    (hrect : RectGrid g maxX maxY) (hocc : Occ g c0) :
    ∃ (comp : List Pt) (g2 : Grid),
      traceParcel g c0.1 c0.2 maxX maxY = some (perimOf comp.toFinset, g2) ∧
      comp.Nodup ∧ (∀ c, c ∈ comp ↔ Reach g c0 c) ∧
      (∀ x y : Int, gridGet g2 x y = if (x, y) ∈ comp then 0 else gridGet g x y) ∧
      RectGrid g2 maxX maxY := by
  obtain ⟨seenF, g2, hrun, hnd, hiff, hA, hrect2⟩ :=
    traceLoop_spec g maxX maxY c0 hrect hocc (traceFuel maxX maxY) g [] [(c0.1, c0.2)] 0
      (by
        have hcard := card_Icc_product maxX maxY
        rw [traceFuel]
        simp only [List.length_cons, List.length_nil]
        omega)
      hrect
      (fun x y => by simp)
      List.nodup_nil
      (fun c hc => absurd hc (List.not_mem_nil c))
      (fun c hc => by
        rw [List.mem_singleton.mp hc]
        exact Relation.ReflTransGen.refl)
      (fun c hc => absurd hc (List.not_mem_nil c))
      (Or.inr (List.mem_singleton.mpr (Prod.mk.eta).symm))
      rfl
  have hiff2 : ∀ c ∈ seenF, ∀ n ∈ nbrs c, (Occ g n ↔ n ∈ seenF) := by
    intro c hc n hn
    constructor
    · intro ho
      refine (hiff n).mpr (((hiff c).mp hc).tail ?_)
      exact ⟨reach_occ hocc ((hiff c).mp hc), ho, hn⟩
    · intro hns
      exact reach_occ hocc ((hiff n).mp hns)
  refine ⟨seenF, g2, ?_, hnd, fun c => hiff c, hA, hrect2⟩
  rw [traceParcel, ← sum_outdeg_eq_perim hnd hiff2]
  exact hrun

/-! ## Scan order -/

theorem scanLT_irrefl {a : Pt} : ¬ scanLT a a := by
  simp only [scanLT]
  omega

theorem scanLT_asymm {a b : Pt} (h : scanLT a b) : ¬ scanLT b a := by
  simp only [scanLT] at h ⊢
  omega

theorem scanLT_or {a b : Pt} (h : a ≠ b) : scanLT a b ∨ scanLT b a := by
  have h2 : ¬ (a.1 = b.1 ∧ a.2 = b.2) := fun hc => h (Prod.ext_iff.mpr hc)
  simp only [scanLT]
  omega

/-! ## Unfolding the scan -/

theorem scanAll_cons_occ {maxX maxY : Int} {q : Pt} {R : List Pt} {g : Grid}
    (hq : (gridGet g q.1 q.2 != 0) = true) {per : Nat} {g2 : Grid}
    (htr : traceParcel g q.1 q.2 maxX maxY = some (per, g2)) :
    scanAll maxX maxY (q :: R) g =
      (scanAll maxX maxY R g2).map fun r => (per :: r.1, r.2) := by
  rw [scanAll, if_pos hq, htr]

theorem scanAll_cons_dead {maxX maxY : Int} {q : Pt} {R : List Pt} {g : Grid}
    (hq : (gridGet g q.1 q.2 != 0) = true)
    (htr : traceParcel g q.1 q.2 maxX maxY = none) :
    scanAll maxX maxY (q :: R) g = none := by
  rw [scanAll, if_pos hq, htr]

theorem scanAll_cons_skip {maxX maxY : Int} {q : Pt} {R : List Pt} {g : Grid}
    (hq : (gridGet g q.1 q.2 != 0) = false) :
    scanAll maxX maxY (q :: R) g = scanAll maxX maxY R g := by
  rw [scanAll, if_neg (by simp [hq])]

theorem scanAll_append (maxX maxY : Int) (l1 l2 : List Pt) :
    ∀ g : Grid, scanAll maxX maxY (l1 ++ l2) g =
      (scanAll maxX maxY l1 g).bind fun r =>
        (scanAll maxX maxY l2 r.2).map fun r2 => (r.1 ++ r2.1, r2.2) := by
  induction l1 with
  | nil =>
    intro g
    rw [List.nil_append]
    show _ = (scanAll maxX maxY l2 g).map fun r2 => ([] ++ r2.1, r2.2)
    cases h : scanAll maxX maxY l2 g with
    | none => rfl
    | some r => simp
  | cons q l1 ih =>
    intro g
    rw [List.cons_append]
    by_cases hq : (gridGet g q.1 q.2 != 0) = true
    · cases htr : traceParcel g q.1 q.2 maxX maxY with
      | none => rw [scanAll_cons_dead hq htr, scanAll_cons_dead hq htr]; rfl
      | some r =>
        obtain ⟨per, g2⟩ := r
        rw [scanAll_cons_occ hq htr, scanAll_cons_occ hq htr, ih g2]
        cases h1 : scanAll maxX maxY l1 g2 with
        | none => rfl
        | some r1 =>
          cases h2 : scanAll maxX maxY l2 r1.2 with
          | none => simp [h2]
          | some r2 => simp [h2]
    · have hq2 : (gridGet g q.1 q.2 != 0) = false := eq_false_of_ne_true hq
      rw [scanAll_cons_skip hq2, scanAll_cons_skip hq2]
      exact ih g

theorem scanY_eq_scanAll (maxX maxY x : Int) :
    ∀ (ys : List Int) (g : Grid), scanY maxX maxY x ys g =
      scanAll maxX maxY (ys.map fun y => (x, y)) g := by
  intro ys
  induction ys with
  | nil => intro g; rfl
  | cons y ys ih =>
    intro g
    rw [List.map_cons, scanY, scanAll]
    by_cases hq : (gridGet g x y != 0) = true
    · rw [if_pos hq, if_pos hq]
      cases htr : traceParcel g x y maxX maxY with
      | none => rfl
      | some r =>
        obtain ⟨per, g2⟩ := r
        show Option.map (fun r => (per :: r.1, r.2)) (scanY maxX maxY x ys g2) =
          Option.map (fun r => (per :: r.1, r.2))
            (scanAll maxX maxY (ys.map fun y => (x, y)) g2)
        rw [ih g2]
    · rw [if_neg hq, if_neg hq]
      exact ih g

theorem scanX_eq_scanAll (maxX maxY : Int) :
    ∀ (xs : List Int) (g : Grid), scanX maxX maxY xs g =
      scanAll maxX maxY (xs.flatMap fun x => (intsUpTo maxY).map fun y => (x, y)) g := by
  intro xs
  induction xs with
  | nil => intro g; rfl
  | cons x xs ih =>
    intro g
    rw [List.flatMap_cons, scanAll_append, scanX, scanY_eq_scanAll]
    cases h1 : scanAll maxX maxY ((intsUpTo maxY).map fun y => (x, y)) g with
    | none => rfl
    | some r => simp only [Option.some_bind]; rw [ih r.2]

theorem findParcelsO_eq_scanAll (g : Grid) (maxX maxY : Int) :
    findParcelsO g maxX maxY = scanAll maxX maxY (allPositions maxX maxY) g :=
  scanX_eq_scanAll maxX maxY (intsUpTo maxX) g

/-! ## The scan discovers every component once, in scan order -/

theorem scanAll_spec (g0 : Grid) (maxX maxY : Int) (hrect0 : RectGrid g0 maxX maxY) :
    ∀ (R : List Pt) (g : Grid) (found : List (Pt × Finset Pt)),
    ScanInv g0 maxX maxY R g found →
    ∃ (newFound : List (Pt × Finset Pt)) (g2 : Grid),
      scanAll maxX maxY R g = some (newFound.map (fun e => perimOf e.2), g2) ∧
      ScanInv g0 maxX maxY [] g2 (found ++ newFound) := by
  intro R
  induction R with
  | nil =>
    intro g found hinv
    exact ⟨[], g, by simp [scanAll], by simpa using hinv⟩
  | cons q R' ih =>
    intro g found hinv
    obtain ⟨hpw, hrect, hocceq, hfound, hcover, hreps, hfr, hsix⟩ := hinv
    have hpwtail := (List.pairwise_cons.mp hpw).2
    have hpwhead := (List.pairwise_cons.mp hpw).1
    by_cases hq : Occ g q
    · -- a still-occupied cell: a new parcel is discovered here
      obtain ⟨comp, g2, htr, hndc, hcompiff, hA2, hrect2⟩ :=
        traceParcel_spec g maxX maxY q hrect hq
      have hoccg : ∀ c, Occ g c → Occ g0 c := fun c hc => ((hocceq c).mp hc).1
      have hqg0 : Occ g0 q := hoccg q hq
      have hquncov : ∀ e ∈ found, q ∉ e.2 := ((hocceq q).mp hq).2
      have hcomp_occ_g : ∀ x, Reach g0 q x → Occ g x := by
        intro x hx
        rw [hocceq]
        refine ⟨reach_occ hqg0 hx, ?_⟩
        intro e he hxin
        obtain ⟨hrep_occ, hiff_e, hleast⟩ := hfound e he
        have h1 : Reach g0 e.1 x := (hiff_e x).mp hxin
        have h2 : Reach g0 e.1 q := h1.trans (reach_symm hx)
        exact hquncov e he ((hiff_e q).mpr h2)
      have hreach_eq : ∀ x, Reach g q x ↔ Reach g0 q x :=
        fun x => ⟨reach_mono hoccg, reach_restrict hcomp_occ_g⟩
      have hT : ∀ x, x ∈ comp.toFinset ↔ Reach g0 q x := by
        intro x
        rw [List.mem_toFinset, hcompiff, hreach_eq]
      have hleastT : leastCell comp.toFinset q := by
        refine ⟨(hT q).mpr Relation.ReflTransGen.refl, ?_⟩
        intro d hd hlt
        have hdR : Reach g0 q d := (hT d).mp hd
        have hdocc : Occ g0 d := reach_occ hqg0 hdR
        have hdIn : PtIn maxX maxY d := occ_ptIn hrect0 hdocc
        rcases hsix d hdIn with h | h
        · rcases List.mem_cons.mp h with h2 | h2
          · rw [h2] at hlt; exact scanLT_irrefl hlt
          · exact scanLT_asymm (hpwhead d h2) hlt
        · rcases hcover d hdocc with hc | ⟨e, he, hdin⟩
          · exact scanLT_irrefl (h d hc)
          · obtain ⟨hrep_occ, hiff_e, hleast⟩ := hfound e he
            have h1 : Reach g0 e.1 q :=
              ((hiff_e d).mp hdin).trans (reach_symm hdR)
            exact hquncov e he ((hiff_e q).mpr h1)
      -- the new invariant after consuming this component
      have hinv2 : ScanInv g0 maxX maxY R' g2 (found ++ [(q, comp.toFinset)]) := by
        refine ⟨hpwtail, hrect2, ?_, ?_, ?_, ?_, ?_, ?_⟩
        · intro c
          have hA2c : gridGet g2 c.1 c.2 =
              if c ∈ comp then 0 else gridGet g c.1 c.2 := by
            rw [hA2 c.1 c.2]
          by_cases hcm : c ∈ comp
          · constructor
            · intro hoc
              exact absurd (by rw [hA2c, if_pos hcm] : gridGet g2 c.1 c.2 = 0) hoc
            · rintro ⟨-, hall⟩
              exact absurd (List.mem_toFinset.mpr hcm)
                (hall (q, comp.toFinset)
                  (List.mem_append_right _ (List.mem_singleton.mpr rfl)))
          · have : Occ g2 c ↔ Occ g c := by
              unfold Occ
              rw [hA2c, if_neg hcm]
            rw [this, hocceq c]
            constructor
            · rintro ⟨h1, h2⟩
              refine ⟨h1, ?_⟩
              intro e he
              rcases List.mem_append.mp he with h3 | h3
              · exact h2 e h3
              · rw [List.mem_singleton.mp h3]
                simpa using fun hc => hcm (List.mem_toFinset.mp hc)
            · rintro ⟨h1, h2⟩
              exact ⟨h1, fun e he => h2 e (List.mem_append_left _ he)⟩
        · intro e he
          rcases List.mem_append.mp he with h3 | h3
          · exact hfound e h3
          · rw [List.mem_singleton.mp h3]
            exact ⟨hqg0, hT, hleastT⟩
        · intro c hc0
          rcases hcover c hc0 with hc | ⟨e, he, hcin⟩
          · rcases List.mem_cons.mp hc with h2 | h2
            · refine Or.inr ⟨(q, comp.toFinset),
                List.mem_append_right _ (List.mem_singleton.mpr rfl), ?_⟩
              rw [h2]
              exact (hT q).mpr Relation.ReflTransGen.refl
            · exact Or.inl h2
          · exact Or.inr ⟨e, List.mem_append_left _ he, hcin⟩
        · rw [List.map_append, List.pairwise_append]
          refine ⟨hreps, by simp, ?_⟩
          intro a ha b hb
          have hb2 : b = q := by simpa using hb
          obtain ⟨e, he, rfl⟩ := List.mem_map.mp ha
          exact hb2 ▸ hfr e he q (List.mem_cons_self _ _)
        · intro e he r hr
          rcases List.mem_append.mp he with h3 | h3
          · exact hfr e h3 r (List.mem_cons_of_mem _ hr)
          · rw [List.mem_singleton.mp h3]
            exact hpwhead r hr
        · intro c hcIn
          rcases hsix c hcIn with h | h
          · rcases List.mem_cons.mp h with h2 | h2
            · exact Or.inr (fun r hr => h2 ▸ hpwhead r hr)
            · exact Or.inl h2
          · exact Or.inr (fun r hr => h r (List.mem_cons_of_mem _ hr))
      obtain ⟨newFound, g3, hscan, hinv3⟩ := ih g2 (found ++ [(q, comp.toFinset)]) hinv2
      refine ⟨(q, comp.toFinset) :: newFound, g3, ?_, ?_⟩
      · rw [scanAll_cons_occ (by simpa using hq) htr, hscan]
        rfl
      · simpa [List.append_assoc] using hinv3
    · -- already consumed or never occupied: the scan skips this position
      have hq0 : gridGet g q.1 q.2 = 0 := by
        by_contra hc; exact hq hc
      have hinv2 : ScanInv g0 maxX maxY R' g found := by
        refine ⟨hpwtail, hrect, hocceq, hfound, ?_, hreps, ?_, ?_⟩
        · intro c hc0
          rcases hcover c hc0 with hc | hc
          · rcases List.mem_cons.mp hc with h2 | h2
            · subst h2
              have := (hocceq c).not.mp hq
              rw [not_and_or] at this
              rcases this with h3 | h3
              · exact absurd hc0 h3
              · push_neg at h3
                obtain ⟨e, he, hce⟩ := h3
                exact Or.inr ⟨e, he, hce⟩
            · exact Or.inl h2
          · exact Or.inr hc
        · exact fun e he r hr => hfr e he r (List.mem_cons_of_mem _ hr)
        · intro c hcIn
          rcases hsix c hcIn with h | h
          · rcases List.mem_cons.mp h with h2 | h2
            · exact Or.inr (fun r hr => h2 ▸ hpwhead r hr)
            · exact Or.inl h2
          · exact Or.inr (fun r hr => h r (List.mem_cons_of_mem _ hr))
      obtain ⟨newFound, g3, hscan, hinv3⟩ := ih g found hinv2
      exact ⟨newFound, g3, by
        rw [scanAll_cons_skip (by simpa using hq0), hscan], hinv3⟩

/-! ## The scan sequence -/

theorem mem_intsUpTo {m z : Int} : z ∈ intsUpTo m ↔ 0 ≤ z ∧ z ≤ m := by
  simp only [intsUpTo, List.mem_map, List.mem_range]
  constructor
  · rintro ⟨i, hi, rfl⟩
    omega
  · rintro ⟨h0, hm⟩
    exact ⟨z.toNat, by omega, by omega⟩

theorem intsUpTo_pairwise (m : Int) : (intsUpTo m).Pairwise (· < ·) := by
  unfold intsUpTo
  rw [List.pairwise_map]
  refine (List.pairwise_lt_range _).imp ?_
  intro a b h
  omega

theorem mem_allPositions {maxX maxY : Int} {c : Pt} :
    c ∈ allPositions maxX maxY ↔ PtIn maxX maxY c := by
  simp only [allPositions, List.mem_flatMap, List.mem_map]
  constructor
  · rintro ⟨x, hx, y, hy, rfl⟩
    obtain ⟨hx0, hx1⟩ := mem_intsUpTo.mp hx
    obtain ⟨hy0, hy1⟩ := mem_intsUpTo.mp hy
    exact ⟨hx0, hx1, hy0, hy1⟩
  · intro h
    exact ⟨c.1, mem_intsUpTo.mpr ⟨h.1, h.2.1⟩, c.2,
      mem_intsUpTo.mpr ⟨h.2.2.1, h.2.2.2⟩, Prod.mk.eta⟩

theorem pairwise_allPositions (maxX maxY : Int) :
    (allPositions maxX maxY).Pairwise scanLT := by
  unfold allPositions
  have hys := intsUpTo_pairwise maxY
  have hgroup : ∀ x : Int, ((intsUpTo maxY).map fun y => ((x, y) : Pt)).Pairwise scanLT := by
    intro x
    rw [List.pairwise_map]
    refine hys.imp ?_
    intro a b h
    exact Or.inr ⟨rfl, h⟩
  have : ∀ xs : List Int, xs.Pairwise (· < ·) →
      (xs.flatMap fun x => (intsUpTo maxY).map fun y => ((x, y) : Pt)).Pairwise scanLT := by
    intro xs
    induction xs with
    | nil => intro _; exact List.Pairwise.nil
    | cons x xs ih =>
      intro hpw
      rw [List.flatMap_cons, List.pairwise_append]
      refine ⟨hgroup x, ih (List.pairwise_cons.mp hpw).2, ?_⟩
      intro a ha b hb
      obtain ⟨ya, -, rfl⟩ := List.mem_map.mp ha
      obtain ⟨x', hx', hb2⟩ := List.mem_flatMap.mp hb
      obtain ⟨yb, -, rfl⟩ := List.mem_map.mp hb2
      exact Or.inl ((List.pairwise_cons.mp hpw).1 x' hx')
  exact this _ (intsUpTo_pairwise maxX)

theorem scanInv_init (g0 : Grid) (maxX maxY : Int) (hrect0 : RectGrid g0 maxX maxY) :
    ScanInv g0 maxX maxY (allPositions maxX maxY) g0 [] := by
  refine ⟨pairwise_allPositions _ _, hrect0, ?_, ?_, ?_, ?_, ?_, ?_⟩
  · intro c; simp
  · intro e he; exact absurd he (List.not_mem_nil e)
  · intro c hc
    exact Or.inl (mem_allPositions.mpr (occ_ptIn hrect0 hc))
  · simp
  · intro e he; exact absurd he (List.not_mem_nil e)
  · intro c hc
    exact Or.inl (mem_allPositions.mpr hc)

/-- Master result: the scan of `findParcels` returns one perimeter per
discovered component, and the final invariant describes the outcome. -/
theorem findParcels_master (g0 : Grid) (maxX maxY : Int)
    (hrect0 : RectGrid g0 maxX maxY) :
    ∃ (found : List (Pt × Finset Pt)) (g2 : Grid),
      findParcelsO g0 maxX maxY = some (found.map (fun e => perimOf e.2), g2) ∧
      ScanInv g0 maxX maxY [] g2 found := by
  obtain ⟨nf, g2, hscan, hinv⟩ :=
    scanAll_spec g0 maxX maxY hrect0 (allPositions maxX maxY) g0 []
      (scanInv_init g0 maxX maxY hrect0)
  exact ⟨nf, g2, by rw [findParcelsO_eq_scanAll]; exact hscan, by simpa using hinv⟩

theorem parsePoints_ok {points : List String} {g : Grid} {mX mY : Int}
    (h : parsePoints points = Except.ok (g, mX, mY)) :
    ∃ res, parseLoop points [] (-1) (-1) = Except.ok (res, mX, mY) ∧
      g = buildGrid res mX mY := by
  unfold parsePoints at h
  cases hp : parseLoop points [] (-1) (-1) with
  | error e => rw [hp] at h; exact absurd h (by simp [Except.map])
  | ok r =>
    rw [hp] at h
    obtain ⟨res, mX', mY'⟩ := r
    simp only [Except.map, Except.ok.injEq, Prod.mk.injEq] at h
    obtain ⟨h1, h2, h3⟩ := h
    subst h2; subst h3
    exact ⟨res, rfl, h1.symm⟩

theorem parsePoints_rect {points : List String} {g : Grid} {mX mY : Int}
    (h : parsePoints points = Except.ok (g, mX, mY)) : RectGrid g mX mY := by
  obtain ⟨res, hp, rfl⟩ := parsePoints_ok h
  exact buildGrid_rect res mX mY

/-! ## Perimeter arithmetic: insertion formula and parity -/

theorem length_filter_split {α : Type} (p : α → Bool) (l : List α) :
    (l.filter p).length + (l.filter fun a => !(p a)).length = l.length := by
  induction l with
  | nil => rfl
  | cons a l ih =>
    cases hpa : p a <;> simp [List.filter, hpa] <;> omega

theorem filter_notmem_insert {T : Finset Pt} {c : Pt} (hc : c ∉ T) :
    ∀ {l : List Pt}, l.Nodup →
    (l.filter fun n => decide (n ∉ T)).length =
      (l.filter fun n => decide (n ∉ insert c T)).length + (if c ∈ l then 1 else 0) := by
  intro l
  induction l with
  | nil => intro _; simp
  | cons a l ih =>
    intro hnd
    obtain ⟨hal, hl⟩ := List.nodup_cons.mp hnd
    by_cases hac : a = c
    · subst hac
      rw [if_pos (List.mem_cons_self _ _)]
      have h1 : (decide (a ∉ T)) = true := by simp [hc]
      have h2 : (decide (a ∉ insert a T)) = false := by simp
      simp only [List.filter, h1, h2, List.length_cons]
      rw [ih hl, if_neg hal]
    · have hifeq : (if c ∈ a :: l then (1 : Nat) else 0) =
          (if c ∈ l then (1 : Nat) else 0) := by
        by_cases hcl : c ∈ l
        · rw [if_pos hcl, if_pos (List.mem_cons_of_mem _ hcl)]
        · rw [if_neg hcl, if_neg (by
            intro hcc
            rcases List.mem_cons.mp hcc with h | h
            · exact hac h.symm
            · exact hcl h)]
      rw [hifeq]
      by_cases haT : a ∈ T
      · have h1 : (decide (a ∉ T)) = false := by simp [haT]
        have h2 : (decide (a ∉ insert c T)) = false := by simp [haT]
        simp only [List.filter, h1, h2]
        rw [ih hl]
      · have h1 : (decide (a ∉ T)) = true := by simp [haT]
        have h2 : (decide (a ∉ insert c T)) = true := by
          simp [haT, hac]
        simp only [List.filter, h1, h2, List.length_cons]
        rw [ih hl]
        omega

theorem list_finset_count {l : List Pt} (hl : l.Nodup) (T : Finset Pt) :
    (l.filter fun n => decide (n ∈ T)).length = (T.filter (· ∈ l)).card := by
  rw [← List.toFinset_card_of_nodup (hl.filter _), List.toFinset_filter]
  congr 1
  ext q
  simp only [Finset.mem_filter, List.mem_toFinset, decide_eq_true_eq]
  tauto

theorem perim_insert {T : Finset Pt} {c : Pt} (hc : c ∉ T) :
    perimOf (insert c T) + 2 * ((nbrs c).filter fun n => decide (n ∈ T)).length =
      perimOf T + 4 := by
  have hin : ((nbrs c).filter fun n => decide (n ∈ T)).length =
      (T.filter (· ∈ nbrs c)).card := list_finset_count (nbrs_nodup c) T
  have hfc : ((nbrs c).filter fun n => decide (n ∉ insert c T)).length =
      ((nbrs c).filter fun n => decide (n ∉ T)).length := by
    refine congrArg List.length (List.filter_congr ?_)
    intro n hn
    have hne : n ≠ c := fun h => not_self_mem_nbrs c (h ▸ hn)
    refine decide_eq_decide.mpr ?_
    simp [Finset.mem_insert, hne]
  have hsplit : ((nbrs c).filter fun n => decide (n ∉ T)).length +
      ((nbrs c).filter fun n => decide (n ∈ T)).length = 4 := by
    have := length_filter_split (fun n => decide (n ∉ T)) (nbrs c)
    have hconv : ((nbrs c).filter fun a => !(decide (a ∉ T))).length =
        ((nbrs c).filter fun n => decide (n ∈ T)).length := by
      refine congrArg List.length (List.filter_congr ?_)
      intro n _
      simp
    rw [hconv] at this
    simpa [nbrs] using this
  have hsumT : perimOf T = (T.sum fun a =>
      ((nbrs a).filter fun n => decide (n ∉ insert c T)).length) +
      (T.filter (· ∈ nbrs c)).card := by
    rw [perimOf]
    have hterm : ∀ a ∈ T, ((nbrs a).filter fun n => decide (n ∉ T)).length =
        ((nbrs a).filter fun n => decide (n ∉ insert c T)).length +
        (if c ∈ nbrs a then 1 else 0) := by
      intro a _
      exact filter_notmem_insert hc (nbrs_nodup a)
    rw [Finset.sum_congr rfl hterm, Finset.sum_add_distrib]
    congr 1
    have : ∀ a ∈ T, (if c ∈ nbrs a then 1 else 0) =
        (if a ∈ nbrs c then 1 else 0) := by
      intro a _
      by_cases h : c ∈ nbrs a
      · rw [if_pos h, if_pos (nbrs_symm.mp h)]
      · rw [if_neg h, if_neg (fun h2 => h (nbrs_symm.mpr h2))]
    rw [Finset.sum_congr rfl this, Finset.card_filter]
  rw [perimOf, Finset.sum_insert hc, hfc]
  omega

theorem perim_even (T : Finset Pt) : Even (perimOf T) := by
  induction T using Finset.induction_on with
  | empty => simp [perimOf]
  | insert hc ih =>
    have := perim_insert hc
    rw [Nat.even_iff] at ih ⊢
    omega

/-! ## Consequences of the final scan state -/

theorem scanInv_final_cover {g0 : Grid} {maxX maxY : Int} {g2 : Grid}
    {found : List (Pt × Finset Pt)} (h : ScanInv g0 maxX maxY [] g2 found) :
    ∀ c : Pt, Occ g0 c → ∃ e ∈ found, c ∈ e.2 := by
  intro c hc
  rcases h.2.2.2.2.1 c hc with h2 | h2
  · exact absurd h2 (List.not_mem_nil c)
  · exact h2

theorem scanInv_final_empty {g0 : Grid} {maxX maxY : Int} {g2 : Grid}
    {found : List (Pt × Finset Pt)} (h : ScanInv g0 maxX maxY [] g2 found) :
    ∀ x y : Int, gridGet g2 x y = 0 := by
  intro x y
  by_contra hocc
  obtain ⟨h1, h2⟩ := (h.2.2.1 (x, y)).mp hocc
  obtain ⟨e, he, hce⟩ := scanInv_final_cover h (x, y) h1
  exact h2 e he hce

theorem component_eq {g : Grid} {T U : Finset Pt}
    (hT : IsComponent g T) (hU : IsComponent g U) {c : Pt}
    (hcT : c ∈ T) (hcU : c ∈ U) : T = U := by
  obtain ⟨a, ha, hai⟩ := hT
  obtain ⟨b, hb, hbi⟩ := hU
  have hab : Reach g a b :=
    ((hai c).mp hcT).trans (reach_symm ((hbi c).mp hcU))
  ext x
  rw [hai x, hbi x]
  exact reach_congr hab x

theorem leastCell_unique {T : Finset Pt} {a b : Pt}
    (ha : leastCell T a) (hb : leastCell T b) : a = b := by
  by_contra hne
  rcases scanLT_or hne with h | h
  · exact hb.2 a ha.1 h
  · exact ha.2 b hb.1 h

/-- The payload produced by the full scan of a parsed grid: the perimeter
list, one entry per component of the grid, in scan order. -/
theorem findParcels_components (g : Grid) (mX mY : Int) (hrect : RectGrid g mX mY) :
    ∃ (found : List (Pt × Finset Pt)) (g2 : Grid),
      findParcelsO g mX mY = some (found.map (fun e => perimOf e.2), g2) ∧
      findParcels g mX mY = (found.map (fun e => perimOf e.2), g2) ∧
      (∀ e ∈ found, IsComponent g e.2 ∧ leastCell e.2 e.1) ∧
      (∀ T : Finset Pt, IsComponent g T → T ∈ found.map Prod.snd) ∧
      (found.map Prod.snd).Nodup ∧
      (found.map Prod.fst).Pairwise scanLT ∧
      (∀ e ∈ found, ∀ x, x ∈ e.2 ↔ Reach g e.1 x) ∧
      (∀ x y : Int, gridGet g2 x y = 0) := by
  obtain ⟨found, g2, hscan, hinv⟩ := findParcels_master g mX mY hrect
  have hfound := hinv.2.2.2.1
  have hreps := hinv.2.2.2.2.2.1
  have hcover2 : ∀ c : Pt, Occ g c → ∃ e ∈ found, c ∈ e.2 := scanInv_final_cover hinv
  have hiscomp : ∀ e ∈ found, IsComponent g e.2 :=
    fun e he => ⟨e.1, (hfound e he).1, (hfound e he).2.1⟩
  refine ⟨found, g2, hscan, ?_, ?_, ?_, ?_, hreps, ?_, scanInv_final_empty hinv⟩
  · rw [findParcels, hscan]; rfl
  · exact fun e he => ⟨hiscomp e he, (hfound e he).2.2⟩
  · intro T hT
    obtain ⟨c, hc, hci⟩ := hT
    have hcT : c ∈ T := (hci c).mpr Relation.ReflTransGen.refl
    obtain ⟨e, he, hce⟩ := hcover2 c hc
    have hTe : T = e.2 := component_eq ⟨c, hc, hci⟩ (hiscomp e he) hcT hce
    rw [hTe]
    exact List.mem_map.mpr ⟨e, he, rfl⟩
  · have h1 : found.Pairwise (fun e f => scanLT e.1 f.1) := List.pairwise_map.mp hreps
    have h2 : found.Pairwise (fun e f => e.2 ≠ f.2) := by
      refine h1.imp_of_mem ?_
      intro e f he hf hlt heq
      have hle : leastCell f.2 e.1 := heq ▸ (hfound e he).2.2
      have hlf : leastCell f.2 f.1 := (hfound f hf).2.2
      rw [leastCell_unique hle hlf] at hlt
      exact scanLT_irrefl hlt
    show (found.map Prod.snd).Pairwise (· ≠ ·)
    exact List.pairwise_map.mpr h2
  · exact fun e he => (hfound e he).2.1

theorem render_ok_elim {points : List String} {l : List Nat}
    (h : render points = Except.ok l) :
    l = [] ∨ ∃ g mX mY, parsePoints points = Except.ok (g, mX, mY) ∧
      l = (findParcels g mX mY).1 := by
  rw [render] at h
  by_cases he : points.isEmpty
  · rw [if_pos he] at h
    exact Or.inl (Except.ok.inj h).symm
  · rw [if_neg he] at h
    cases hp : parsePoints points with
    | error e => rw [hp] at h; exact absurd h (by simp [Except.map])
    | ok r =>
      rw [hp] at h
      obtain ⟨g, mX, mY⟩ := r
      refine Or.inr ⟨g, mX, mY, rfl, ?_⟩
      simp only [Except.map] at h
      exact (Except.ok.inj h).symm

/-- C2: every perimeter in a successful result of `render` is an even
(and, being a natural number, non-negative) integer. -/
theorem c2_every_perimeter_even (points : List String) (l : List Nat)
    (h : render points = Except.ok l) : ∀ m ∈ l, Even m := by
  intro m hm
  rcases render_ok_elim h with rfl | ⟨g, mX, mY, hp, rfl⟩
  · exact absurd hm (List.not_mem_nil m)
  · obtain ⟨found, g2, -, hfp, -, -, -, -, -, -⟩ :=
      findParcels_components g mX mY (parsePoints_rect hp)
    rw [hfp] at hm
    obtain ⟨e, he, rfl⟩ := List.mem_map.mp hm
    exact perim_even e.2

/-- Witness for C2 at a concrete input. -/
theorem c2_every_perimeter_even_witness :
    render ["0,0", "0,1", "1,1"] = Except.ok [8] ∧ ∀ m ∈ [8], Even m :=
  ⟨rfl, c2_every_perimeter_even ["0,0", "0,1", "1,1"] [8] rfl⟩

/-- C8: after `findParcels` has run on a grid built by `parsePoints`, every
cell of the resulting grid is unoccupied. -/
theorem c8_grid_fully_consumed (points : List String) (g : Grid) (mX mY : Int)
    (h : parsePoints points = Except.ok (g, mX, mY)) :
    ∀ x y : Int, gridGet (findParcels g mX mY).2 x y = 0 := by
  obtain ⟨found, g2, -, hfp, -, -, -, -, -, hempty⟩ :=
    findParcels_components g mX mY (parsePoints_rect h)
  rw [hfp]
  exact hempty

/-- Witness for C8 at a concrete input. -/
theorem c8_grid_fully_consumed_witness :
    parsePoints ["0,0", "1,0"] = Except.ok ([[1], [1]], 1, 0) ∧
    gridGet (findParcels [[1], [1]] 1 0).2 0 0 = 0 ∧
    gridGet (findParcels [[1], [1]] 1 0).2 1 0 = 0 :=
  ⟨rfl, c8_grid_fully_consumed ["0,0", "1,0"] [[1], [1]] 1 0 rfl 0 0,
    c8_grid_fully_consumed ["0,0", "1,0"] [[1], [1]] 1 0 rfl 1 0⟩

/-- C3: a successful run returns exactly one perimeter per maximal
4-connected component of the parsed grid, listed without repetition and
ordered by the components' scan-least cells (x-major scan order). -/
theorem c3_one_perimeter_per_component (points : List String) (g : Grid)
    (mX mY : Int) (l : List Nat) (g2 : Grid)
    (hp : parsePoints points = Except.ok (g, mX, mY))
    (hf : findParcels g mX mY = (l, g2)) :
    ∃ comps : List (Finset Pt),
      l = comps.map perimOf ∧
      (∀ T ∈ comps, IsComponent g T) ∧
      (∀ T : Finset Pt, IsComponent g T → T ∈ comps) ∧
      comps.Nodup ∧
      comps.Pairwise (fun T U => ∃ c d, leastCell T c ∧ leastCell U d ∧ scanLT c d) := by
  obtain ⟨found, g2', -, hfp, hcomp, hcompl, hnd, hpw, -, -⟩ :=
    findParcels_components g mX mY (parsePoints_rect hp)
  rw [hf] at hfp
  have hl : l = found.map (fun e => perimOf e.2) := (Prod.ext_iff.mp hfp).1
  refine ⟨found.map Prod.snd, ?_, ?_, hcompl, hnd, ?_⟩
  · rw [hl, List.map_map]
    rfl
  · intro T hT
    obtain ⟨e, he, rfl⟩ := List.mem_map.mp hT
    exact (hcomp e he).1
  · refine List.pairwise_map.mpr ?_
    refine (List.pairwise_map.mp hpw).imp_of_mem ?_
    intro e f he hf2 hlt
    exact ⟨e.1, f.1, (hcomp e he).2, (hcomp f hf2).2, hlt⟩

/-- Witness for C3 at a concrete input with two parcels. -/
theorem c3_one_perimeter_per_component_witness :
    parsePoints ["0,0", "0,1", "0,2", "2,0"] =
      Except.ok ([[1, 1, 1], [0, 0, 0], [1, 0, 0]], 2, 2) ∧
    findParcels [[1, 1, 1], [0, 0, 0], [1, 0, 0]] 2 2 =
      ([8, 4], [[0, 0, 0], [0, 0, 0], [0, 0, 0]]) ∧
    ∃ comps : List (Finset Pt),
      [8, 4] = comps.map perimOf ∧
      (∀ T ∈ comps, IsComponent [[1, 1, 1], [0, 0, 0], [1, 0, 0]] T) ∧
      (∀ T : Finset Pt, IsComponent [[1, 1, 1], [0, 0, 0], [1, 0, 0]] T → T ∈ comps) ∧
      comps.Nodup ∧
      comps.Pairwise (fun T U => ∃ c d, leastCell T c ∧ leastCell U d ∧ scanLT c d) :=
  ⟨rfl, rfl, c3_one_perimeter_per_component ["0,0", "0,1", "0,2", "2,0"]
    [[1, 1, 1], [0, 0, 0], [1, 0, 0]] 2 2 [8, 4]
    [[0, 0, 0], [0, 0, 0], [0, 0, 0]] rfl rfl⟩

/-! ## Straight runs: grid, component, and perimeter -/

theorem le_maxXOf : ∀ {pts : List (Nat × Nat)} (m : Int),
    m ≤ pts.foldl (fun m p => max m (p.1 : Int)) m ∧
    ∀ q ∈ pts, (q.1 : Int) ≤ pts.foldl (fun m p => max m (p.1 : Int)) m := by
  intro pts
  induction pts with
  | nil => intro m; exact ⟨le_refl m, fun q hq => absurd hq (List.not_mem_nil q)⟩
  | cons p l ih =>
    intro m
    rw [List.foldl_cons]
    refine ⟨le_trans (le_max_left _ _) (ih (max m (p.1 : Int))).1, ?_⟩
    intro q hq
    rcases List.mem_cons.mp hq with h | h
    · rw [h]
      exact le_trans (le_max_right _ _) (ih (max m (p.1 : Int))).1
    · exact (ih (max m (p.1 : Int))).2 q h

theorem le_maxYOf : ∀ {pts : List (Nat × Nat)} (m : Int),
    m ≤ pts.foldl (fun m p => max m (p.2 : Int)) m ∧
    ∀ q ∈ pts, (q.2 : Int) ≤ pts.foldl (fun m p => max m (p.2 : Int)) m := by
  intro pts
  induction pts with
  | nil => intro m; exact ⟨le_refl m, fun q hq => absurd hq (List.not_mem_nil q)⟩
  | cons p l ih =>
    intro m
    rw [List.foldl_cons]
    refine ⟨le_trans (le_max_left _ _) (ih (max m (p.2 : Int))).1, ?_⟩
    intro q hq
    rcases List.mem_cons.mp hq with h | h
    · rw [h]
      exact le_trans (le_max_right _ _) (ih (max m (p.2 : Int))).1
    · exact (ih (max m (p.2 : Int))).2 q h

theorem pts_le_maxes {pts : List (Nat × Nat)} :
    ∀ q ∈ pts, (q.1 : Int) ≤ maxXOf pts ∧ (q.2 : Int) ≤ maxYOf pts :=
  fun q hq => ⟨(le_maxXOf (-1)).2 q hq, (le_maxYOf (-1)).2 q hq⟩

theorem ptsToInt_linePts (n x0 y0 : Nat) (horiz : Bool) :
    ptsToInt (linePts n x0 y0 horiz) = (List.range n).map (lineCell x0 y0 horiz) := by
  rw [ptsToInt, linePts, List.map_map]
  refine List.map_congr_left ?_
  intro i _
  cases horiz <;>
    simp only [Function.comp, lineCell, if_true, if_false, Bool.false_eq_true] <;>
    refine Prod.ext ?_ ?_ <;> push_cast <;> ring

theorem lineCell_injective {x0 y0 : Nat} {horiz : Bool} {i j : Nat}
    (h : lineCell x0 y0 horiz i = lineCell x0 y0 horiz j) : i = j := by
  cases horiz <;>
    simp only [lineCell, if_true, if_false, Bool.false_eq_true, Prod.ext_iff] at h <;>
    omega

theorem mem_lineF {n x0 y0 : Nat} {horiz : Bool} {c : Pt} :
    c ∈ (ptsToInt (linePts n x0 y0 horiz)).toFinset ↔
      ∃ i < n, c = lineCell x0 y0 horiz i := by
  rw [List.mem_toFinset, ptsToInt_linePts]
  simp only [List.mem_map, List.mem_range]
  constructor
  · rintro ⟨i, hi, rfl⟩; exact ⟨i, hi, rfl⟩
  · rintro ⟨i, hi, rfl⟩; exact ⟨i, hi, rfl⟩

theorem occ_lineGrid {n x0 y0 : Nat} {horiz : Bool} {c : Pt} :
    Occ (buildGrid (linePts n x0 y0 horiz) (maxXOf (linePts n x0 y0 horiz))
      (maxYOf (linePts n x0 y0 horiz))) c ↔
    c ∈ (ptsToInt (linePts n x0 y0 horiz)).toFinset := by
  unfold Occ
  rw [show gridGet (buildGrid (linePts n x0 y0 horiz) (maxXOf (linePts n x0 y0 horiz))
      (maxYOf (linePts n x0 y0 horiz))) c.1 c.2 =
      if (c.1, c.2) ∈ ptsToInt (linePts n x0 y0 horiz) then 1 else 0 from
    gridGet_buildGrid pts_le_maxes c.1 c.2]
  rw [List.mem_toFinset]
  by_cases h : (c.1, c.2) ∈ ptsToInt (linePts n x0 y0 horiz)
  · rw [if_pos h]
    simp only [ne_eq, one_ne_zero, not_false_eq_true, true_iff]
    exact h
  · rw [if_neg h]
    simp only [ne_eq, not_true_eq_false, false_iff]
    intro hc
    exact h hc

theorem lineCell_adj {x0 y0 : Nat} {horiz : Bool} (i : Nat) :
    lineCell x0 y0 horiz (i + 1) ∈ nbrs (lineCell x0 y0 horiz i) := by
  cases horiz
  · refine mem_nbrs.mpr (Or.inr (Or.inr (Or.inr ?_)))
    simp only [lineCell, Bool.false_eq_true, if_false]
    refine Prod.ext ?_ ?_ <;> push_cast <;> ring
  · refine mem_nbrs.mpr (Or.inr (Or.inl ?_))
    simp only [lineCell, if_true]
    refine Prod.ext ?_ ?_ <;> push_cast <;> ring

theorem occ_lineGrid' {n x0 y0 : Nat} {horiz : Bool} {c : Pt} :
    Occ (lineGrid n x0 y0 horiz) c ↔
      c ∈ (ptsToInt (linePts n x0 y0 horiz)).toFinset :=
  occ_lineGrid

theorem line_reach0 (n x0 y0 : Nat) (horiz : Bool) :
    ∀ j, j < n → Reach (lineGrid n x0 y0 horiz) (lineCell x0 y0 horiz 0)
      (lineCell x0 y0 horiz j) := by
  intro j
  induction j with
  | zero => intro _; exact Relation.ReflTransGen.refl
  | succ j ih =>
    intro hj
    refine (ih (by omega)).tail ?_
    refine ⟨?_, ?_, lineCell_adj j⟩
    · exact occ_lineGrid'.mpr (mem_lineF.mpr ⟨j, by omega, rfl⟩)
    · exact occ_lineGrid'.mpr (mem_lineF.mpr ⟨j + 1, hj, rfl⟩)

theorem line_reach (n x0 y0 : Nat) (horiz : Bool) {i j : Nat}
    (hi : i < n) (hj : j < n) :
    Reach (lineGrid n x0 y0 horiz) (lineCell x0 y0 horiz i)
      (lineCell x0 y0 horiz j) :=
  (reach_symm (line_reach0 n x0 y0 horiz i hi)).trans (line_reach0 n x0 y0 horiz j hj)

theorem line_isComponent (n x0 y0 : Nat) (horiz : Bool) (hn : 1 ≤ n) :
    IsComponent (lineGrid n x0 y0 horiz)
      (ptsToInt (linePts n x0 y0 horiz)).toFinset := by
  refine ⟨lineCell x0 y0 horiz 0, ?_, ?_⟩
  · exact occ_lineGrid'.mpr (mem_lineF.mpr ⟨0, by omega, rfl⟩)
  · intro x
    constructor
    · intro hx
      obtain ⟨j, hj, rfl⟩ := mem_lineF.mp hx
      exact line_reach0 n x0 y0 horiz j hj
    · intro hr
      exact occ_lineGrid'.mp
        (reach_occ (occ_lineGrid'.mpr (mem_lineF.mpr ⟨0, by omega, rfl⟩)) hr)

theorem line_component_unique {n x0 y0 : Nat} {horiz : Bool}
    (T : Finset Pt) (hT : IsComponent (lineGrid n x0 y0 horiz) T) :
    T = (ptsToInt (linePts n x0 y0 horiz)).toFinset := by
  obtain ⟨c, hc, hci⟩ := hT
  obtain ⟨i, hi, rfl⟩ := mem_lineF.mp (occ_lineGrid'.mp hc)
  ext x
  rw [hci x, mem_lineF]
  constructor
  · intro hr
    exact mem_lineF.mp (occ_lineGrid'.mp (reach_occ hc hr))
  · rintro ⟨j, hj, rfl⟩
    exact line_reach n x0 y0 horiz hi hj

theorem perim_singleton (c : Pt) : perimOf {c} = 4 := by
  rw [perimOf, Finset.sum_singleton]
  have hfe : (nbrs c).filter (fun n => decide (n ∉ ({c} : Finset Pt))) = nbrs c := by
    rw [List.filter_eq_self]
    intro n hn
    simp only [decide_eq_true_eq, Finset.mem_singleton]
    exact fun h => not_self_mem_nbrs c (h ▸ hn)
  rw [hfe]
  rfl

theorem lineF_succ (n x0 y0 : Nat) (horiz : Bool) :
    (ptsToInt (linePts (n + 1) x0 y0 horiz)).toFinset =
      insert (lineCell x0 y0 horiz n) (ptsToInt (linePts n x0 y0 horiz)).toFinset := by
  rw [ptsToInt_linePts, ptsToInt_linePts, List.range_succ, List.map_append,
    List.toFinset_append]
  simp only [List.map_cons, List.map_nil, List.toFinset_cons, List.toFinset_nil,
    insert_emptyc_eq]
  rw [Finset.union_comm, ← Finset.insert_eq]

theorem lineCell_not_mem {n x0 y0 : Nat} {horiz : Bool} :
    lineCell x0 y0 horiz n ∉ (ptsToInt (linePts n x0 y0 horiz)).toFinset := by
  intro h
  obtain ⟨i, hi, heq⟩ := mem_lineF.mp h
  have := lineCell_injective heq
  omega

theorem line_incount {n x0 y0 : Nat} {horiz : Bool} (hn : 1 ≤ n) :
    ((nbrs (lineCell x0 y0 horiz n)).filter fun q =>
      decide (q ∈ (ptsToInt (linePts n x0 y0 horiz)).toFinset)).length = 1 := by
  cases horiz
  · -- vertical: only the cell below is in the run
    have h1 : (((lineCell x0 y0 false n).1 - 1, (lineCell x0 y0 false n).2) : Pt) ∉
        (ptsToInt (linePts n x0 y0 false)).toFinset := by
      intro h
      obtain ⟨i, hi, heq⟩ := mem_lineF.mp h
      simp only [lineCell, Bool.false_eq_true, if_false, Prod.ext_iff] at heq
      omega
    have h2 : (((lineCell x0 y0 false n).1 + 1, (lineCell x0 y0 false n).2) : Pt) ∉
        (ptsToInt (linePts n x0 y0 false)).toFinset := by
      intro h
      obtain ⟨i, hi, heq⟩ := mem_lineF.mp h
      simp only [lineCell, Bool.false_eq_true, if_false, Prod.ext_iff] at heq
      omega
    have h3 : (((lineCell x0 y0 false n).1, (lineCell x0 y0 false n).2 - 1) : Pt) ∈
        (ptsToInt (linePts n x0 y0 false)).toFinset := by
      refine mem_lineF.mpr ⟨n - 1, by omega, ?_⟩
      simp only [lineCell, Bool.false_eq_true, if_false, Prod.ext_iff]
      constructor <;> first | trivial | (push_cast; omega)
    have h4 : (((lineCell x0 y0 false n).1, (lineCell x0 y0 false n).2 + 1) : Pt) ∉
        (ptsToInt (linePts n x0 y0 false)).toFinset := by
      intro h
      obtain ⟨i, hi, heq⟩ := mem_lineF.mp h
      simp only [lineCell, Bool.false_eq_true, if_false, Prod.ext_iff] at heq
      omega
    rw [show nbrs (lineCell x0 y0 false n) =
      [((lineCell x0 y0 false n).1 - 1, (lineCell x0 y0 false n).2),
       ((lineCell x0 y0 false n).1 + 1, (lineCell x0 y0 false n).2),
       ((lineCell x0 y0 false n).1, (lineCell x0 y0 false n).2 - 1),
       ((lineCell x0 y0 false n).1, (lineCell x0 y0 false n).2 + 1)] from rfl,
      length_filter_four]
    simp only [decide_eq_true_eq]
    rw [if_neg h1, if_neg h2, if_pos h3, if_neg h4]
  · -- horizontal: only the cell to the left is in the run
    have h1 : (((lineCell x0 y0 true n).1 - 1, (lineCell x0 y0 true n).2) : Pt) ∈
        (ptsToInt (linePts n x0 y0 true)).toFinset := by
      refine mem_lineF.mpr ⟨n - 1, by omega, ?_⟩
      simp only [lineCell, if_true, Prod.ext_iff]
      constructor <;> first | trivial | (push_cast; omega)
    have h2 : (((lineCell x0 y0 true n).1 + 1, (lineCell x0 y0 true n).2) : Pt) ∉
        (ptsToInt (linePts n x0 y0 true)).toFinset := by
      intro h
      obtain ⟨i, hi, heq⟩ := mem_lineF.mp h
      simp only [lineCell, if_true, Prod.ext_iff] at heq
      omega
    have h3 : (((lineCell x0 y0 true n).1, (lineCell x0 y0 true n).2 - 1) : Pt) ∉
        (ptsToInt (linePts n x0 y0 true)).toFinset := by
      intro h
      obtain ⟨i, hi, heq⟩ := mem_lineF.mp h
      simp only [lineCell, if_true, Prod.ext_iff] at heq
      omega
    have h4 : (((lineCell x0 y0 true n).1, (lineCell x0 y0 true n).2 + 1) : Pt) ∉
        (ptsToInt (linePts n x0 y0 true)).toFinset := by
      intro h
      obtain ⟨i, hi, heq⟩ := mem_lineF.mp h
      simp only [lineCell, if_true, Prod.ext_iff] at heq
      omega
    rw [show nbrs (lineCell x0 y0 true n) =
      [((lineCell x0 y0 true n).1 - 1, (lineCell x0 y0 true n).2),
       ((lineCell x0 y0 true n).1 + 1, (lineCell x0 y0 true n).2),
       ((lineCell x0 y0 true n).1, (lineCell x0 y0 true n).2 - 1),
       ((lineCell x0 y0 true n).1, (lineCell x0 y0 true n).2 + 1)] from rfl,
      length_filter_four]
    simp only [decide_eq_true_eq]
    rw [if_pos h1, if_neg h2, if_neg h3, if_neg h4]

theorem line_perim (x0 y0 : Nat) (horiz : Bool) :
    ∀ n, 1 ≤ n → perimOf (ptsToInt (linePts n x0 y0 horiz)).toFinset = 2 * n + 2 := by
  intro n
  induction n with
  | zero => intro h; omega
  | succ n ih =>
    intro _
    by_cases hn : 1 ≤ n
    · have hins := perim_insert (@lineCell_not_mem n x0 y0 horiz)
      have hk := @line_incount n x0 y0 horiz hn
      have hih := ih hn
      rw [lineF_succ]
      omega
    · have hn0 : n = 0 := by omega
      subst hn0
      rw [lineF_succ]
      have h0 : (ptsToInt (linePts 0 x0 y0 horiz)).toFinset = ∅ := by
        simp [ptsToInt_linePts]
      rw [h0]
      have := perim_singleton (lineCell x0 y0 horiz 0)
      simpa using this

theorem list_eq_singleton {α : Type} {L : List α} {a : α} (hnd : L.Nodup)
    (hall : ∀ b ∈ L, b = a) (hmem : a ∈ L) : L = [a] := by
  cases L with
  | nil => exact absurd hmem (List.not_mem_nil a)
  | cons b L2 =>
    have hb : b = a := hall b (List.mem_cons_self _ _)
    subst hb
    cases L2 with
    | nil => rfl
    | cons c L3 =>
      have hc : c = b := hall c (List.mem_cons_of_mem _ (List.mem_cons_self _ _))
      have hnotin := (List.nodup_cons.mp hnd).1
      exact absurd (by rw [hc]; exact List.mem_cons_self _ _ : b ∈ c :: L3) hnotin

/-- C1: an input that is exactly a straight run of `N ≥ 1` 4-connected
coordinates, at any in-bounds position, horizontal or vertical, yields the
single-element perimeter list `[2N + 2]` (so a single coordinate yields
`[4]` wherever it sits). -/
theorem c1_straight_run_perimeter (n x0 y0 : Nat) (horiz : Bool) (hn : 1 ≤ n)
    (hxb : (if horiz then x0 + n - 1 else x0) ≤ 99)
    (hyb : (if horiz then y0 else y0 + n - 1) ≤ 99) :
    ∃ g2 : Grid,
      findParcelsO (lineGrid n x0 y0 horiz) (maxXOf (linePts n x0 y0 horiz))
        (maxYOf (linePts n x0 y0 horiz)) = some ([2 * n + 2], g2) := by
  obtain ⟨found, g2, hscanO, -, hcomp, hcompl, hnd, -, -, -⟩ :=
    findParcels_components (lineGrid n x0 y0 horiz)
      (maxXOf (linePts n x0 y0 horiz)) (maxYOf (linePts n x0 y0 horiz))
      (buildGrid_rect _ _ _)
  have hone : found.map Prod.snd = [(ptsToInt (linePts n x0 y0 horiz)).toFinset] := by
    refine list_eq_singleton hnd ?_ ?_
    · intro T hT
      obtain ⟨e, he, rfl⟩ := List.mem_map.mp hT
      exact line_component_unique e.2 (hcomp e he).1
    · exact hcompl _ (line_isComponent n x0 y0 horiz hn)
  have hperims : found.map (fun e => perimOf e.2) = [2 * n + 2] := by
    rw [show (fun (e : Pt × Finset Pt) => perimOf e.2) = (perimOf ∘ Prod.snd) from rfl,
      ← List.map_map, hone, List.map_singleton, line_perim x0 y0 horiz n hn]
  exact ⟨g2, by rw [hscanO, hperims]⟩

/-- Witness for C1: a horizontal run of three cells has perimeter 8. -/
theorem c1_straight_run_perimeter_witness :
    (1 ≤ 3 ∧ (if true then 2 + 3 - 1 else 2) ≤ 99 ∧
      (if true then 5 else 5 + 3 - 1) ≤ 99) ∧
    ∃ g2 : Grid,
      findParcelsO (lineGrid 3 2 5 true) (maxXOf (linePts 3 2 5 true))
        (maxYOf (linePts 3 2 5 true)) = some ([2 * 3 + 2], g2) :=
  ⟨⟨by decide, by decide, by decide⟩,
    c1_straight_run_perimeter 3 2 5 true (by decide) (by decide) (by decide)⟩

/-! ## Duplicate points are idempotent -/

theorem set_getElem_self {α : Type} {l : List α} {i : Nat} {a : α}
    (h : l[i]? = some a) : l.set i a = l := by
  refine List.ext_getElem? ?_
  intro m
  rw [List.getElem?_set]
  split
  case isTrue heq =>
    subst heq
    split
    case isTrue hlt => exact h.symm
    case isFalse hlt =>
      rw [List.getElem?_eq_none (by omega)] at h
      exact absurd h (by simp)
  case isFalse => rfl

theorem setCell_eq_self {g : Grid} {x y : Int} {v : Nat}
    (hx : 0 ≤ x) (hy : 0 ≤ y) (hval : gridGet g x y = v)
    (hxl : x.toNat < g.length) (hyl : y.toNat < (g.getD x.toNat []).length) :
    setCell g x y v = g := by
  rw [setCell, if_pos ⟨hx, hy⟩]
  have hcell : (g.getD x.toNat [])[y.toNat] = v := by
    rw [← List.getD_eq_getElem _ 0 hyl]
    rw [gridGet_def_pos hx hy] at hval
    exact hval
  have hrow : (g.getD x.toNat []).set y.toNat v = g.getD x.toNat [] := by
    apply set_getElem_self
    rw [List.getElem?_eq_getElem hyl, hcell]
  rw [hrow]
  apply set_getElem_self
  rw [List.getElem?_eq_getElem hxl, List.getD_eq_getElem g [] hxl]

theorem buildGrid_append (pts : List (Nat × Nat)) (q : Nat × Nat) (mX mY : Int) :
    buildGrid (pts ++ [q]) mX mY =
      setCell (buildGrid pts mX mY) (q.1 : Int) (q.2 : Int) 1 := by
  rw [buildGrid, buildGrid, List.foldl_append]
  rfl

/-- C7: appending a duplicate of a coordinate already present leaves the
result of `render` unchanged. -/
theorem c7_duplicate_idempotent (points : List String) (p : String)
    (hp : p ∈ points) : render (points ++ [p]) = render points := by
  have hne : points.isEmpty = false := by
    cases points
    · exact absurd hp (List.not_mem_nil p)
    · rfl
  have hne2 : (points ++ [p]).isEmpty = false := by
    cases points <;> rfl
  have hne' : ¬ (points.isEmpty = true) := by rw [hne]; exact Bool.false_ne_true
  have hne2' : ¬ ((points ++ [p]).isEmpty = true) := by
    rw [hne2]; exact Bool.false_ne_true
  rw [render, render, if_neg hne', if_neg hne2']
  suffices hpp : parsePoints (points ++ [p]) = parsePoints points by rw [hpp]
  cases hres : parseLoop points [] (-1) (-1) with
  | error e =>
    have happ : parseLoop (points ++ [p]) [] (-1) (-1) = Except.error e := by
      rw [parseLoop_append, hres]
      rfl
    rw [parsePoints, parsePoints, happ, hres]
  | ok r =>
    obtain ⟨res, mX, mY⟩ := r
    obtain ⟨v, hm, hvx, hvy, hvres, hvmx, hvmy⟩ :=
      parseLoop_mem points [] (-1) (-1) res mX mY hres p hp
    obtain ⟨x, y⟩ := v
    have happ : parseLoop (points ++ [p]) [] (-1) (-1) =
        Except.ok (res ++ [(x, y)], mX, mY) := by
      rw [parseLoop_append, hres]
      show parseLoop [p] res mX mY = _
      rw [parseLoop_cons_ok hm hvx hvy]
      simp only [parseLoop, Except.ok.injEq, Prod.mk.injEq]
      refine ⟨trivial, ?_, ?_⟩
      · exact max_eq_left hvmx
      · exact max_eq_left hvmy
    have hpts : ∀ q ∈ res, (q.1 : Int) ≤ mX ∧ (q.2 : Int) ≤ mY :=
      parseLoop_res_le points [] (-1) (-1) res mX mY hres
        (fun v hv => absurd hv (List.not_mem_nil v))
    have hrect : RectGrid (buildGrid res mX mY) mX mY := buildGrid_rect res mX mY
    have hgeq : buildGrid (res ++ [(x, y)]) mX mY = buildGrid res mX mY := by
      rw [buildGrid_append]
      have hxm : ((x : Int), (y : Int)) ∈ ptsToInt res :=
        List.mem_map.mpr ⟨(x, y), hvres, rfl⟩
      refine setCell_eq_self (Int.natCast_nonneg x) (Int.natCast_nonneg y) ?_ ?_ ?_
      · rw [gridGet_buildGrid hpts]
        exact if_pos hxm
      · exact rect_length hrect (Int.natCast_nonneg x) hvmx
      · exact rect_row_length hrect (Int.natCast_nonneg x) hvmx
          (Int.natCast_nonneg y) hvmy
    rw [parsePoints, parsePoints, happ, hres]
    simp only [Except.map]
    rw [hgeq]

/-- Witness for C7 at a concrete input. -/
theorem c7_duplicate_idempotent_witness :
    ("0,0" ∈ ["0,0", "1,0"]) ∧
    render (["0,0", "1,0"] ++ ["0,0"]) = render ["0,0", "1,0"] :=
  ⟨by decide, c7_duplicate_idempotent ["0,0", "1,0"] "0,0" (by decide)⟩

/-! ## Validation error behaviour -/

/-- C5: validation is eager and fail-fast — with all elements before `s`
valid and `s` invalid, the call fails with exactly the error `s` itself
determines (shape failures give the `TypeError`, range failures the
`RangeError`), whatever comes after `s`; no partial result is produced. -/
theorem c5_fail_fast (pre : List String) (s : String) (post : List String)
    (hpre : ∀ t ∈ pre, validElem t = true) (hbad : validElem s = false) :
    render (pre ++ s :: post) = Except.error (elemErrorOf s) := by
  have hnem : (pre ++ s :: post).isEmpty = false := by cases pre <;> rfl
  rw [render, if_neg (by rw [hnem]; exact Bool.false_ne_true), parsePoints,
    parseLoop_error_first pre s post [] (-1) (-1) hpre hbad]
  rfl

/-- Witness for C5: a range-invalid element before a shape-invalid one. -/
theorem c5_fail_fast_witness :
    (∀ t ∈ ["1,2"], validElem t = true) ∧ validElem "100,0" = false ∧
    elemErrorOf "100,0" = rangeError ∧
    render (["1,2"] ++ "100,0" :: ["abc"]) = Except.error (elemErrorOf "100,0") :=
  ⟨by decide, by decide, by decide,
    c5_fail_fast ["1,2"] "100,0" ["abc"] (by decide) (by decide)⟩

/-- C6: a shape-valid coordinate whose x or y exceeds 99, reached as the
first invalid element, makes the call fail with exactly the `RangeError`
already in the validation loop — before any grid is built (`parsePoints`
only constructs the grid on a successful loop). -/
theorem c6_range_error (pre : List String) (s : String) (post : List String)
    (x y : Nat) (hpre : ∀ t ∈ pre, validElem t = true)
    (hm : matchPoint s = some (x, y)) (hr : MAX_VALUE < x ∨ MAX_VALUE < y) :
    parseLoop (pre ++ s :: post) [] (-1) (-1) = Except.error rangeError ∧
    render (pre ++ s :: post) = Except.error rangeError := by
  have hbad : validElem s = false := by
    rw [validElem, hm]
    show (decide (x ≤ MAX_VALUE) && decide (y ≤ MAX_VALUE)) = false
    rcases hr with h | h
    · rw [decide_eq_false (Nat.not_le.mpr h), Bool.false_and]
    · rw [decide_eq_false (Nat.not_le.mpr h), Bool.and_false]
  have herr : elemErrorOf s = rangeError := by rw [elemErrorOf, hm]
  have h5 := parseLoop_error_first pre s post [] (-1) (-1) hpre hbad
  rw [herr] at h5
  refine ⟨h5, ?_⟩
  have hnem : (pre ++ s :: post).isEmpty = false := by cases pre <;> rfl
  rw [render, if_neg (by rw [hnem]; exact Bool.false_ne_true), parsePoints, h5]
  rfl

/-- Witness for C6 at a concrete input. -/
theorem c6_range_error_witness :
    matchPoint "3,100" = some (3, 100) ∧
    parseLoop (["1,2"] ++ "3,100" :: ["7,7"]) [] (-1) (-1) =
      Except.error rangeError ∧
    render (["1,2"] ++ "3,100" :: ["7,7"]) = Except.error rangeError :=
  ⟨by decide,
    (c6_range_error ["1,2"] "3,100" ["7,7"] 3 100 (by decide) (by decide)
      (by decide)).1,
    (c6_range_error ["1,2"] "3,100" ["7,7"] 3 100 (by decide) (by decide)
      (by decide)).2⟩

/-- The amended pattern is exactly the set of strings the regex accepts. -/
theorem amended_iff_match (s : String) :
    amendedPatternC4 s = true ↔ (matchPoint s).isSome = true := by
  simp only [amendedPatternC4, patC4core, matchPoint]
  by_cases hd : (s.toList.takeWhile Char.isDigit).isEmpty
  · simp only [hd, if_true, Bool.not_true, Bool.false_and, Option.isSome_none]
    constructor
    · intro h; exact absurd h (by split <;> simp)
    · intro h; exact absurd h (by simp)
  · simp only [Bool.not_eq_true] at hd
    simp only [hd, Bool.not_false, Bool.true_and, Bool.false_eq_true,
      if_false]
    split
    · split
      · next hcond =>
          simp only [Option.isSome_none, Bool.false_eq_true, iff_false]
          intro hL
          simp only [Bool.and_eq_true, Bool.not_eq_true'] at hL
          simp only [Bool.or_eq_true, Bool.not_eq_true'] at hcond
          rcases hcond with h | h
          · rw [h] at hL; exact absurd hL.1 (by simp)
          · rw [hL.2] at h; cases h
      · next hcond =>
          simp only [Option.isSome_some, iff_true]
          simp only [Bool.or_eq_true, not_or, Bool.not_eq_true,
            Bool.not_eq_false'] at hcond
          rw [hcond.1, hcond.2]; rfl
    · simp

/-- C4 (counterexample): the claimed pattern allows optional *leading*
whitespace, but the regex `^(\d+)...` does not — the element `" 0,0"`
matches the claimed pattern yet validation rejects it with the
`TypeError`. -/
theorem c4_counterexample :
    specPatternC4 " 0,0" = true ∧ validElem " 0,0" = false ∧
    render [" 0,0"] = Except.error typeError :=
  ⟨by decide, by decide, by rfl⟩

/-- C4 (amended): validation accepts an element (it contributes no shape
error) iff it matches the amended pattern `digits optional-whitespace ,
optional-whitespace digits` — no leading whitespace; and any element
violating the amended pattern, reached as the first invalid element,
fails the whole call with exactly the `TypeError` and its fixed
message. -/
theorem c4_amended (s : String) :
    (amendedPatternC4 s = true ↔ (matchPoint s).isSome = true) ∧
    (amendedPatternC4 s = false →
      ∀ pre post, (∀ t ∈ pre, validElem t = true) →
        render (pre ++ s :: post) = Except.error typeError) := by
  refine ⟨amended_iff_match s, ?_⟩
  intro hfalse pre post hpre
  have hmp : matchPoint s = none := by
    cases hmpe : matchPoint s with
    | none => rfl
    | some v =>
      have hs := (amended_iff_match s).mpr (by rw [hmpe]; rfl)
      rw [hs] at hfalse; cases hfalse
  have hbad : validElem s = false := by rw [validElem, hmp]
  have herr : elemErrorOf s = typeError := by rw [elemErrorOf, hmp]
  have h5 := parseLoop_error_first pre s post [] (-1) (-1) hpre hbad
  rw [herr] at h5
  have hnem : (pre ++ s :: post).isEmpty = false := by cases pre <;> rfl
  rw [render, if_neg (by rw [hnem]; exact Bool.false_ne_true), parsePoints,
    h5]
  rfl

/-- Witness for the amended C4 theorem at concrete inputs. -/
theorem c4_amended_witness :
    (amendedPatternC4 "0,0" = true ↔ (matchPoint "0,0").isSome = true) ∧
    amendedPatternC4 " 0,0" = false ∧
    (∀ t ∈ ["1,1"], validElem t = true) ∧
    render (["1,1"] ++ " 0,0" :: []) = Except.error typeError :=
  ⟨(c4_amended "0,0").1, by decide, by decide,
    (c4_amended " 0,0").2 (by decide) ["1,1"] [] (by decide)⟩

/-! ## Equivalence of the TypeScript and JavaScript implementations -/

/-- The two validation loops are the same function. -/
theorem parseLoopTS_eq (points : List String) :
    ∀ acc mX mY, parseLoopTS points acc mX mY = parseLoop points acc mX mY := by
  induction points with
  | nil => intro acc mX mY; rfl
  | cons s rest ih =>
    intro acc mX mY
    cases hm : matchPoint s with
    | none => simp only [parseLoopTS, parseLoop, hm]
    | some v =>
      obtain ⟨x, y⟩ := v
      simp only [parseLoopTS, parseLoop, hm]
      split
      · rfl
      · exact ih _ _ _

/-- The two per-direction steps agree. -/
theorem dirStepTS_eq (g : Grid) (seen : List Pt) (b : Bool) (n : Pt) :
    dirStepTS g seen b n = dirStep g seen b n := by
  by_cases h : n ∈ seen <;>
    simp [dirStepTS, dirStep, hasNotBeenSeen, isNewNeighbourTS,
      isNewNeighbour, h]

/-- The two trace loops agree (the TypeScript loop tests
`hasNotBeenSeen` and processes on true; the JavaScript loop tests
membership and skips on true — the same branching). -/
theorem traceLoopTS_eq (maxX maxY : Int) (fuel : Nat) :
    ∀ g seen openEdges stack,
      traceLoopTS maxX maxY fuel g seen openEdges stack =
        traceLoop maxX maxY fuel g seen openEdges stack := by
  induction fuel with
  | zero => intro g seen oe stack; rfl
  | succ fuel ih =>
    intro g seen oe stack
    cases stack with
    | nil => rfl
    | cons p rest =>
      by_cases hmem : (p.1, p.2) ∈ seen <;>
        simp only [traceLoopTS, traceLoop, hasNotBeenSeen, hmem,
          decide_True, decide_False, Bool.not_true, Bool.not_false,
          Bool.false_eq_true, if_true, if_false, ite_true, ite_false,
          dirStepTS_eq, ih]

/-- The two parcel tracers agree. -/
theorem traceParcelTS_eq (g : Grid) (mX mY x y : Int) :
    traceParcelTS ⟨g, mX, mY⟩ x y = traceParcel g x y mX mY := by
  simp only [traceParcelTS, traceParcel, traceLoopTS_eq]

/-- The two inner scan loops agree. -/
theorem scanYTS_eq (maxX maxY x : Int) :
    ∀ ys g, scanYTS maxX maxY x ys g = scanY maxX maxY x ys g := by
  intro ys
  induction ys with
  | nil => intro g; rfl
  | cons y ys ih =>
    intro g
    simp only [scanYTS, scanY, traceParcelTS_eq]
    split
    · cases htr : traceParcel g x y maxX maxY with
      | none => rfl
      | some r => simp only [ih]
    · exact ih g

/-- The two outer scan loops agree. -/
theorem scanXTS_eq (maxX maxY : Int) :
    ∀ xs g, scanXTS maxX maxY xs g = scanX maxX maxY xs g := by
  intro xs
  induction xs with
  | nil => intro g; rfl
  | cons x xs ih =>
    intro g
    simp only [scanXTS, scanX, scanYTS_eq, ih]

/-- C10: the TypeScript implementation (`computeParcelPerimeters` of
ParcelFinder.ts) and the JavaScript implementation (`render` of
ParcelFinder.js) are the same function — identical perimeter sequences on
valid input, identical error kind and message on invalid input. -/
theorem c10_ts_js_equivalent (points : List String) :
    computeParcelPerimeters points = render points := by
  rw [computeParcelPerimeters, render]
  by_cases he : points.isEmpty
  · rw [if_pos he, if_pos he]
  · rw [if_neg he, if_neg he, parsePointsTS, parsePoints, parseLoopTS_eq]
    cases parseLoop points [] (-1) (-1) with
    | error e => rfl
    | ok r =>
      simp only [Except.map, findParcelsTSO, findParcels, findParcelsO,
        scanXTS_eq]

/-! ## Bounds-safety: the checked run agrees with the plain run -/

/-- In-bounds points of a rectangular grid satisfy the structural bounds
the checked accessors test. -/
theorem rect_structBounds {g : Grid} {mX mY : Int} (hr : RectGrid g mX mY)
    {p : Pt} (hp : PtIn mX mY p) :
    0 ≤ p.1 ∧ 0 ≤ p.2 ∧ p.1.toNat < g.length ∧
      p.2.toNat < (g.getD p.1.toNat []).length :=
  ⟨hp.1, hp.2.2.1, rect_length hr hp.1 hp.2.1,
    rect_row_length hr hp.1 hp.2.1 hp.2.2.1 hp.2.2.2⟩

/-- Within the structural bounds, the checked read returns the plain read. -/
theorem gridGetChecked_ok {g : Grid} {x y : Int}
    (hb : 0 ≤ x ∧ 0 ≤ y ∧ x.toNat < g.length ∧
      y.toNat < (g.getD x.toNat []).length) :
    gridGetChecked g x y = Except.ok (gridGet g x y) := by
  rw [gridGetChecked, if_pos hb, gridGet, if_pos ⟨hb.1, hb.2.1⟩]

/-- Within the structural bounds, the checked write returns the plain
write. -/
theorem setCellChecked_ok {g : Grid} {x y : Int} (v : Nat)
    (hb : 0 ≤ x ∧ 0 ≤ y ∧ x.toNat < g.length ∧
      y.toNat < (g.getD x.toNat []).length) :
    setCellChecked g x y v = Except.ok (setCell g x y v) := by
  rw [setCellChecked, if_pos hb]

/-- When the short-circuit boundary guard implies the structural bounds,
the checked direction step returns the plain one. -/
theorem dirStepChecked_ok {g : Grid} {seen : List Pt} {b : Bool} {n : Pt}
    (hb : b = true → 0 ≤ n.1 ∧ 0 ≤ n.2 ∧ n.1.toNat < g.length ∧
      n.2.toNat < (g.getD n.1.toNat []).length) :
    dirStepChecked g seen b n = Except.ok (dirStep g seen b n) := by
  cases b with
  | false =>
    have h1 : dirStepChecked g seen false n =
        if n ∈ seen then pure ([], 0) else pure ([], 1) := by
      rw [dirStepChecked, if_neg]; exact Bool.false_ne_true
    have h2 : dirStep g seen false n =
        if n ∈ seen then ([], 0) else ([], 1) := by
      rw [dirStep, Bool.false_and, if_neg]; exact Bool.false_ne_true
    rw [h1, h2]
    by_cases hs : n ∈ seen
    · rw [if_pos hs, if_pos hs]; rfl
    · rw [if_neg hs, if_neg hs]; rfl
  | true =>
    rw [dirStepChecked, if_pos rfl, gridGetChecked_ok (hb rfl)]
    show (if (gridGet g n.1 n.2 != 0 && !decide (n ∈ seen)) = true then
        (pure ([n], 0) : Except TraceFail (List Pt × Nat))
      else if n ∈ seen then pure ([], 0) else pure ([], 1)) = _
    rw [dirStep, isNewNeighbour, Bool.true_and]
    by_cases hnn : (gridGet g n.1 n.2 != 0 && !decide ((n.1, n.2) ∈ seen)) = true
    · rw [if_pos ?_, if_pos hnn]
      · rfl
      · exact hnn
    · rw [if_neg ?_, if_neg hnn]
      · by_cases hs : n ∈ seen
        · rw [if_pos hs, if_pos hs]; rfl
        · rw [if_neg hs, if_neg hs]; rfl
      · exact hnn

/-- Whatever a direction step pushes is the examined neighbour, and only a
passed boundary guard can push it. -/
theorem dirStep_fst_mem {g : Grid} {seen : List Pt} {b : Bool} {n q : Pt}
    (h : q ∈ (dirStep g seen b n).1) : q = n ∧ b = true := by
  rw [dirStep] at h
  split at h
  · next hc =>
    rw [Bool.and_eq_true] at hc
    exact ⟨by simpa using h, hc.1⟩
  · split at h <;> exact absurd h (List.not_mem_nil q)

theorem except_bind_ok {ε α β : Type} (a : α) (f : α → Except ε β) :
    (bind (Except.ok a) f : Except ε β) = f a := rfl

/-- The checked trace loop never reports an out-of-bounds access when
started from a rectangular grid with an in-bounds stack: it returns
exactly the plain loop's result (fuel exhaustion mapped to
`outOfFuel`). -/
theorem traceLoopChecked_eq (maxX maxY : Int) (fuel : Nat) :
    ∀ g seen oe stack, RectGrid g maxX maxY →
      (∀ p ∈ stack, PtIn maxX maxY p) →
      traceLoopChecked maxX maxY fuel g seen oe stack =
        (traceLoop maxX maxY fuel g seen oe stack).elim
          (Except.error TraceFail.outOfFuel) Except.ok := by
  induction fuel with
  | zero => intro g seen oe stack _ _; rfl
  | succ fuel ih =>
    intro g seen oe stack hrect hstack
    cases stack with
    | nil => rfl
    | cons p rest =>
      have hp : PtIn maxX maxY p := hstack p (List.mem_cons_self p rest)
      have hb := rect_structBounds hrect hp
      have hrect1 : RectGrid (setCell g p.1 p.2 0) maxX maxY :=
        rect_setCell hrect p.1 p.2 0
      obtain ⟨hp1, hp2, hp3, hp4⟩ := hp
      simp only [traceLoopChecked, traceLoop]
      rw [setCellChecked_ok 0 hb, except_bind_ok]
      by_cases hmem : (p.1, p.2) ∈ seen
      · rw [if_pos hmem, if_pos hmem]
        exact ih _ _ _ _ hrect1 fun q hq => hstack q (List.mem_cons_of_mem p hq)
      · rw [if_neg hmem, if_neg hmem]
        have hinl : decide (0 < p.1) = true → PtIn maxX maxY (p.1 - 1, p.2) :=
          fun hd => ⟨by have := of_decide_eq_true hd; omega, by omega, hp3, hp4⟩
        have hinr : decide (p.1 < maxX) = true → PtIn maxX maxY (p.1 + 1, p.2) :=
          fun hd => ⟨by omega, by have := of_decide_eq_true hd; omega, hp3, hp4⟩
        have hind : decide (0 < p.2) = true → PtIn maxX maxY (p.1, p.2 - 1) :=
          fun hd => ⟨hp1, hp2, by have := of_decide_eq_true hd; omega, by omega⟩
        have hinu : decide (p.2 < maxY) = true → PtIn maxX maxY (p.1, p.2 + 1) :=
          fun hd => ⟨hp1, hp2, by omega, by have := of_decide_eq_true hd; omega⟩
        rw [dirStepChecked_ok (fun hd => rect_structBounds hrect1 (hinl hd)),
          except_bind_ok,
          dirStepChecked_ok (fun hd => rect_structBounds hrect1 (hinr hd)),
          except_bind_ok,
          dirStepChecked_ok (fun hd => rect_structBounds hrect1 (hind hd)),
          except_bind_ok,
          dirStepChecked_ok (fun hd => rect_structBounds hrect1 (hinu hd)),
          except_bind_ok]
        refine ih _ _ _ _ hrect1 ?_
        intro q hq
        rcases List.mem_append.mp hq with hq4 | hqrest
        · rcases List.mem_append.mp hq4 with hq3 | hql
          · rcases List.mem_append.mp hq3 with hq2 | hqr
            · rcases List.mem_append.mp hq2 with hqu | hqd
              · obtain ⟨rfl, hbtrue⟩ := dirStep_fst_mem hqu
                exact hinu hbtrue
              · obtain ⟨rfl, hbtrue⟩ := dirStep_fst_mem hqd
                exact hind hbtrue
            · obtain ⟨rfl, hbtrue⟩ := dirStep_fst_mem hqr
              exact hinr hbtrue
          · obtain ⟨rfl, hbtrue⟩ := dirStep_fst_mem hql
            exact hinl hbtrue
        · exact hstack q (List.mem_cons_of_mem p hqrest)

theorem option_elim_some {α β : Type} (a : α) (d : β) (f : α → β) :
    (some a).elim d f = f a := rfl

theorem option_elim_none {α β : Type} (d : β) (f : α → β) :
    (Option.none : Option α).elim d f = d := rfl

/-- `traceParcel`, checked against plain, from any in-bounds start. -/
theorem traceParcelChecked_eq {g : Grid} {maxX maxY : Int} (x y : Int)
    (hrect : RectGrid g maxX maxY) (hpt : PtIn maxX maxY (x, y)) :
    traceParcelChecked g x y maxX maxY =
      (traceParcel g x y maxX maxY).elim
        (Except.error TraceFail.outOfFuel) Except.ok := by
  rw [traceParcelChecked, traceParcel]
  refine traceLoopChecked_eq maxX maxY _ g [] 0 [(x, y)] hrect ?_
  intro p hp
  rw [List.mem_singleton.mp hp]
  exact hpt

/-- The inner scan keeps the grid rectangular. -/
theorem scanY_rect {maxX maxY x : Int} :
    ∀ ys (g : Grid) l g2, scanY maxX maxY x ys g = some (l, g2) →
      RectGrid g maxX maxY → RectGrid g2 maxX maxY := by
  intro ys
  induction ys with
  | nil =>
    intro g l g2 h hrect
    rw [scanY] at h
    injection h with h'
    injection h' with h1 h2
    rw [← h2]; exact hrect
  | cons y ys ih =>
    intro g l g2 h hrect
    rw [scanY] at h
    split at h
    · next hocc =>
      cases htr : traceParcel g x y maxX maxY with
      | none => rw [htr] at h; cases h
      | some r =>
        obtain ⟨per, g'⟩ := r
        rw [htr] at h
        have hocc' : Occ g (x, y) := by simpa using hocc
        obtain ⟨comp, g2', htr2, -, -, -, hrect2⟩ :=
          traceParcel_spec g maxX maxY (x, y) hrect hocc'
        rw [htr] at htr2
        have hg' : RectGrid g' maxX maxY := by
          injection htr2 with he
          injection he with he1 he2
          rw [he2]; exact hrect2
        simp only [Option.map_eq_some'] at h
        obtain ⟨r2, hr2, he⟩ := h
        have : g2 = r2.2 := by
          have := congrArg Prod.snd he
          simpa using this.symm
        rw [this]
        exact ih g' r2.1 r2.2 (by rw [hr2]) hg'
    · exact ih g l g2 h hrect

/-- The checked inner scan never reports an out-of-bounds access on a
rectangular grid scanned at in-bounds positions. -/
theorem scanYChecked_eq {maxX maxY x : Int} (hx : 0 ≤ x ∧ x ≤ maxX) :
    ∀ ys (g : Grid), (∀ y ∈ ys, 0 ≤ y ∧ y ≤ maxY) →
      RectGrid g maxX maxY →
      scanYChecked maxX maxY x ys g =
        (scanY maxX maxY x ys g).elim
          (Except.error TraceFail.outOfFuel) Except.ok := by
  intro ys
  induction ys with
  | nil => intro g _ _; rfl
  | cons y ys ih =>
    intro g hys hrect
    have hy := hys y (List.mem_cons_self y ys)
    have hpt : PtIn maxX maxY (x, y) := ⟨hx.1, hx.2, hy.1, hy.2⟩
    simp only [scanYChecked, scanY]
    rw [gridGetChecked_ok (rect_structBounds hrect hpt), except_bind_ok]
    by_cases hocc : (gridGet g x y != 0) = true
    · rw [if_pos hocc, if_pos hocc]
      have hocc' : Occ g (x, y) := by simpa using hocc
      obtain ⟨comp, g2', htr2, -, -, -, hrect2⟩ :=
        traceParcel_spec g maxX maxY (x, y) hrect hocc'
      rw [traceParcelChecked_eq x y hrect hpt]
      cases htr : traceParcel g x y maxX maxY with
      | none => rw [htr] at htr2; cases htr2
      | some r =>
        obtain ⟨per, g'⟩ := r
        have hg' : RectGrid g' maxX maxY := by
          rw [htr] at htr2
          injection htr2 with he
          injection he with he1 he2
          rw [he2]; exact hrect2
        rw [option_elim_some, except_bind_ok,
          ih g' (fun y2 hy2 => hys y2 (List.mem_cons_of_mem y hy2)) hg']
        show _ = (Option.map (fun r => (per :: r.1, r.2))
            (scanY maxX maxY x ys g')).elim
          (Except.error TraceFail.outOfFuel) Except.ok
        cases hs : scanY maxX maxY x ys g' with
        | none => rfl
        | some r2 => rfl
    · rw [if_neg hocc, if_neg hocc]
      exact ih g (fun y2 hy2 => hys y2 (List.mem_cons_of_mem y hy2)) hrect

/-- The checked outer scan never reports an out-of-bounds access. -/
theorem scanXChecked_eq {maxX maxY : Int} :
    ∀ xs (g : Grid), (∀ x ∈ xs, 0 ≤ x ∧ x ≤ maxX) →
      RectGrid g maxX maxY →
      scanXChecked maxX maxY xs g =
        (scanX maxX maxY xs g).elim
          (Except.error TraceFail.outOfFuel) Except.ok := by
  intro xs
  induction xs with
  | nil => intro g _ _; rfl
  | cons x xs ih =>
    intro g hxs hrect
    have hx := hxs x (List.mem_cons_self x xs)
    simp only [scanXChecked, scanX]
    rw [scanYChecked_eq hx (intsUpTo maxY) g
      (fun y hy => mem_intsUpTo.mp hy) hrect]
    cases hsy : scanY maxX maxY x (intsUpTo maxY) g with
    | none => rfl
    | some r =>
      have hr2 : RectGrid r.2 maxX maxY :=
        scanY_rect (intsUpTo maxY) g r.1 r.2 (by rw [hsy]) hrect
      rw [option_elim_some, except_bind_ok,
        ih r.2 (fun x2 hx2 => hxs x2 (List.mem_cons_of_mem x hx2)) hr2]
      show _ = (Option.map (fun r2 => (r.1 ++ r2.1, r2.2))
          (scanX maxX maxY xs r.2)).elim
        (Except.error TraceFail.outOfFuel) Except.ok
      cases hsx : scanX maxX maxY xs r.2 with
      | none => rfl
      | some r2 => rfl

/-- The fully checked scan of a rectangular grid equals the plain scan. -/
theorem findParcelsChecked_eq {g : Grid} {maxX maxY : Int}
    (hrect : RectGrid g maxX maxY) :
    findParcelsChecked g maxX maxY =
      (findParcelsO g maxX maxY).elim
        (Except.error TraceFail.outOfFuel) Except.ok := by
  rw [findParcelsChecked, findParcelsO]
  exact scanXChecked_eq (intsUpTo maxX) g (fun x hx => mem_intsUpTo.mp hx)
    hrect

/-- C9: on every grid `parsePoints` builds, running `findParcels` with
every `grid[x][y]` read and write bounds-checked succeeds and returns the
plain result — every access lies within `[0..maxX] × [0..maxY]`, each
neighbour read being short-circuit-guarded by its boundary test, so the
out-of-bounds branch is unreachable. -/
theorem c9_all_accesses_in_bounds (points : List String) (g : Grid)
    (mX mY : Int) (h : parsePoints points = Except.ok (g, mX, mY)) :
    findParcelsChecked g mX mY = Except.ok (findParcels g mX mY) := by
  have hrect := parsePoints_rect h
  obtain ⟨found, g2, hO, hF, -⟩ := findParcels_components g mX mY hrect
  rw [findParcelsChecked_eq hrect, hO, option_elim_some, hF]

/-- Witness for C9 at a concrete parsed grid. -/
theorem c9_all_accesses_in_bounds_witness :
    parsePoints ["0,0", "0,1", "1,1"] = Except.ok ([[1, 1], [0, 1]], 1, 1) ∧
    findParcelsChecked [[1, 1], [0, 1]] 1 1 =
      Except.ok (findParcels [[1, 1], [0, 1]] 1 1) :=
  ⟨by rfl, c9_all_accesses_in_bounds ["0,0", "0,1", "1,1"]
    [[1, 1], [0, 1]] 1 1 (by rfl)⟩
